import Mathlib

/-!
# RapidDisk `utils.c`: size parsing, pattern substitution and list teardown

A shallow embedding of `src/utils.c`.

* C strings are `String`s without an embedded NUL, one character per byte;
  `strcmp(a, b) == 0` is equality and `strlen` is `String.length`.
* `unsigned long long` values are naturals below `2 ^ 64`.
* `long double` values are dyadic numbers `num / 2 ^ scale`; every multiplication rounds
  the exact product to `LDBL_MANT_DIG` significant bits (ties to even), a division by
  `1024` only moves the binary point and is exact.
* The PCRE2 library is a parameter (`Pcre2`): the functions below only see what the
  library calls hand back.
* Heap cells are reached through typed addresses; reading through `NULL` or through a
  released address is undefined and makes a run fail (`none`).
-/

namespace Rapiddisk

/-! ## Return codes and machine constants -/

/-- Return code `SUCCESS` of `common.h`. -/
def SUCCESS : Int := 0

/-- Return code `INVALID_VALUE` of `common.h`. -/
def INVALID_VALUE : Int := -1

/-- Largest `unsigned long long`. -/
def ULLONG_MAX : Nat := 2 ^ 64 - 1

/-- PCRE2 error code for "no match". -/
def PCRE2_ERROR_NOMATCH : Int := -1

/-- PCRE2 error code for "output buffer too small". -/
def PCRE2_ERROR_NOMEMORY : Int := -48

/-! ## `strtoull(s, NULL, 10)` -/

/-- The C locale `isspace`. -/
def isspace (c : Char) : Bool :=
  c = ' ' || c = '\t' || c = '\n' || c = '\x0b' || c = '\x0c' || c = '\r'

/-- Accumulate the leading decimal digits of `cs` onto `acc` (unbounded). -/
def strtoull_digits : List Char → Nat → Nat
  | [], acc => acc
  | c :: cs, acc =>
    if c.isDigit then strtoull_digits cs (acc * 10 + (c.toNat - '0'.toNat)) else acc

/-- The `strtoull(s, NULL, 10)` of the C library: leading white space is skipped, one
optional sign is read, the longest run of decimal digits is converted; a value above
`ULLONG_MAX` is clamped to `ULLONG_MAX`, a negated value is taken modulo `2 ^ 64`. -/
def strtoull (s : String) : Nat :=
  let cs := s.data.dropWhile isspace
  let neg : Bool := match cs with
    | '-' :: _ => true
    | _ => false
  let ds : List Char := match cs with
    | '-' :: r => r
    | '+' :: r => r
    | r => r
  let v := strtoull_digits ds 0
  if ULLONG_MAX < v then ULLONG_MAX
  else if neg then (2 ^ 64 - v) % 2 ^ 64
  else v

/-- The decimal text of `n`, most significant digit first (empty for `0`). -/
def decimal (n : Nat) : String := String.mk ((Nat.digits 10 n).reverse.map Nat.digitChar)

/-! ## `long double` arithmetic -/

/-- Number of binary digits of `x`, computed with `fuel` halvings. -/
def bitLength : Nat → Nat → Nat
  | 0, _ => 0
  | fuel + 1, x => if x = 0 then 0 else bitLength fuel (x / 2) + 1

/-- Round the natural number `x` to `p` significant bits, ties to even. -/
def roundToPrec (p x : Nat) : Nat :=
  let e := bitLength x x
  if e ≤ p then x
  else
    let sh := e - p
    let q := x / 2 ^ sh
    let r := x % 2 ^ sh
    let half := 2 ^ (sh - 1)
    let q1 := if half < r ∨ (r = half ∧ q % 2 = 1) then q + 1 else q
    q1 * 2 ^ sh

/-- A non-negative `long double`: the value `num / 2 ^ scale`. -/
structure LongDouble where
  num : Nat
  scale : Nat
deriving DecidableEq, Repr

/-- Conversion `long double ldhsize = hsize`. -/
def ld_of_ull (p : Nat) (n : Nat) : LongDouble := ⟨roundToPrec p n, 0⟩

/-- Multiplication of a `long double` by an integer constant. -/
def ld_mul (p : Nat) (x : LongDouble) (k : Nat) : LongDouble :=
  ⟨roundToPrec p (x.num * k), x.scale⟩

/-- Division of a `long double` by `1024`. -/
def ld_div_1024 (x : LongDouble) : LongDouble := ⟨x.num, x.scale + 10⟩

/-- The `floorl` of the C library, as a natural number. -/
def floorl (x : LongDouble) : Nat := x.num / 2 ^ x.scale

/-- Conversion of an integral `long double` to `unsigned long long`; the conversion of
a value that does not fit is undefined (`none`). -/
def ull_of_floor (v : Nat) : Option Nat := if v ≤ ULLONG_MAX then some v else none

/-! ## The PCRE2 library -/

/-- What `pcre2_match` leaves behind: its return value and, for every group number,
what `pcre2_substring_get_bynumber` copies out (`none`: the group is unset). -/
structure MatchData where
  rc : Int
  group : Nat → Option String

/-- The PCRE2 calls made by `utils.c`.
`compile` is `pcre2_compile` (on failure: error code and error offset),
`exec` is `pcre2_match`, `substitute` is the unbounded outcome of
`pcre2_substitute` with the given option bits (on failure a negative error code, otherwise
the full output text and the number of substitutions),
`get_error_message code len` is the text `pcre2_get_error_message` writes into a
buffer of `len` bytes. -/
structure Pcre2 where
  compile : String → Except (Int × Nat) Unit
  exec : String → String → MatchData
  substitute : String → Nat → String → String → Except Int (String × Nat)
  get_error_message : Int → Nat → String

/-! ## `validate_size` -/

/-- Outcome of `validate_size`: the returned value (`none` when the C code returns a
value it never assigned or converted out of range) and the contents of
`error_message` on return. -/
structure SizeResult where
  res : Option Nat
  error_message : String

/-- The unit table of `validate_size`, lines 481 to 497. -/
def convert_size (p : Nat) (hsize : Nat) (cpcre2_human_size : String) : Option Nat :=
  let ldhsize := ld_of_ull p hsize
  if cpcre2_human_size = "B" then
    ull_of_floor (floorl (ld_div_1024 (ld_div_1024 ldhsize)))
  else if cpcre2_human_size = "KB" then
    ull_of_floor (floorl (ld_div_1024 (ld_div_1024 (ld_mul p ldhsize 1000))))
  else if cpcre2_human_size = "KiB" then
    ull_of_floor (floorl (ld_div_1024 (ld_div_1024 (ld_mul p ldhsize 1024))))
  else if cpcre2_human_size = "MB" then
    ull_of_floor (floorl (ld_div_1024 (ld_div_1024 (ld_mul p (ld_mul p ldhsize 1000) 1000))))
  else if cpcre2_human_size = "MiB" then
    some hsize
  else if cpcre2_human_size = "GB" then
    ull_of_floor (floorl (ld_div_1024 (ld_div_1024
      (ld_mul p (ld_mul p (ld_mul p ldhsize 1000) 1000) 1000))))
  else if cpcre2_human_size = "GiB" then
    some (hsize * 1024 % 2 ^ 64)
  else
    some 0

/-- The function `validate_size(re, subject, error_message)`.
`LDBL_MANT_DIG` is the precision of `long double`, `NAMELEN` the size of `reg_error`;
the last argument is the content of `error_message` on entry. -/
def validate_size (E : Pcre2) (LDBL_MANT_DIG NAMELEN : Nat)
    (re subject error_message : String) : SizeResult :=
  match E.compile re with
  | .ok _ =>
    let md := E.exec re subject
    if md.rc < 0 then
      let reg_error := E.get_error_message md.rc NAMELEN
      ⟨some 0, "Error during matching of size in string '" ++ subject ++ "': '"
        ++ reg_error ++ "'."⟩
    else if md.rc = 2 then
      match md.group 1 with
      | some pcre2_result => ⟨some (strtoull pcre2_result), error_message⟩
      | none => ⟨none, error_message⟩
    else if md.rc = 3 then
      match md.group 1, md.group 2 with
      | some pcre2_result, some pcre2_human_size =>
        ⟨convert_size LDBL_MANT_DIG (strtoull pcre2_result) pcre2_human_size, error_message⟩
      | _, _ => ⟨none, error_message⟩
    else
      ⟨none, error_message⟩
  | .error (errorcode, erroroffset) =>
    let reg_error := E.get_error_message errorcode NAMELEN
    ⟨some 0, "Error compiling regexp at offset #" ++ toString erroroffset ++ ": '"
      ++ reg_error ++ "'."⟩

/-- The pattern compiles and the match captures the magnitude only (`rc == 2`). -/
def MatchesNumber (E : Pcre2) (re subject magnitude : String) : Prop :=
  E.compile re = .ok () ∧ (E.exec re subject).rc = 2 ∧
    (E.exec re subject).group 1 = some magnitude

/-- The pattern compiles and the match captures a magnitude and a unit token
(`rc == 3`). -/
def MatchesNumberUnit (E : Pcre2) (re subject magnitude unit : String) : Prop :=
  E.compile re = .ok () ∧ (E.exec re subject).rc = 3 ∧
    (E.exec re subject).group 1 = some magnitude ∧
    (E.exec re subject).group 2 = some unit

/-! ## The size grammar of the caller -/

/-- The unit tokens of the size grammar. -/
def size_units : List String := ["B", "KB", "KiB", "MB", "MiB", "GB", "GiB"]

/-- Modelled from the spec: the size pattern is owned by the caller of `validate_size`
and is not part of `utils.c`. Its grammar is `<number>` or `<number><unit>` with
group 1 the decimal digits and group 2 the optional unit token drawn from
`B, KB, KiB, MB, MiB, GB, GiB`; this is the outcome of matching it against `subject`. -/
def size_grammar_match (subject : String) : MatchData :=
  let ds := subject.data.takeWhile Char.isDigit
  let rest := subject.data.dropWhile Char.isDigit
  if ds = [] then ⟨PCRE2_ERROR_NOMATCH, fun _ => none⟩
  else if rest = [] then
    ⟨2, fun i => if i = 0 then some subject else if i = 1 then some (String.mk ds) else none⟩
  else if String.mk rest ∈ size_units then
    ⟨3, fun i => if i = 0 then some subject else if i = 1 then some (String.mk ds)
      else if i = 2 then some (String.mk rest) else none⟩
  else ⟨PCRE2_ERROR_NOMATCH, fun _ => none⟩

/-- Modelled from the spec: a PCRE2 stand-in that knows the size grammar only. Every
pattern text compiles to the size grammar, the diagnostic of a failed match is PCRE2's
`no match`, and a substitution replaces a conforming subject as a whole. -/
def sizeEngine : Pcre2 where
  compile := fun _ => .ok ()
  exec := fun _ subject => size_grammar_match subject
  substitute := fun _ _ subject replacement =>
    if 0 ≤ (size_grammar_match subject).rc then .ok (replacement, 1) else .ok (subject, 0)
  get_error_message := fun code _ =>
    if code = PCRE2_ERROR_NOMATCH then "no match" else "unknown error"

/-- Modelled from the spec: a pattern text for the size grammar (the text used by the
caller is not part of `utils.c`). -/
def size_pattern : String := "^([0-9]+)(B|KB|KiB|MB|MiB|GB|GiB)?$"

/-- A PCRE2 stand-in whose every pattern compiles and whose every match hands back the
match data `md`; substitutions leave the subject as it is. -/
def stubEngine (md : MatchData) : Pcre2 where
  compile := fun _ => .ok ()
  exec := fun _ _ => md
  substitute := fun _ _ subject _ => .ok (subject, 0)
  get_error_message := fun code _ =>
    if code = PCRE2_ERROR_NOMATCH then "no match" else "unknown error"

/-! ## `preg_replace` -/

/-- Option bit `PCRE2_SUBSTITUTE_GLOBAL`. -/
def PCRE2_SUBSTITUTE_GLOBAL : Nat := 0x100

/-- The call `pcre2_substitute(code, subject, len, 0, options, NULL, NULL, replacement,
rlen, outputbuffer, &outlength)`: return value and the text stored in the output
buffer. The buffer of `outlength` code units has to hold the output and its terminating
zero; when it cannot, the call fails with `PCRE2_ERROR_NOMEMORY`. -/
def pcre2_substitute (E : Pcre2) (re : String) (options : Nat)
    (subject replacement : String) (outlength : Nat) : Int × Option String :=
  match E.substitute re options subject replacement with
  | .ok (out, count) =>
    if out.length + 1 ≤ outlength then ((count : Int), some out)
    else (PCRE2_ERROR_NOMEMORY, none)
  | .error e => (e, none)

/-- Outcome of `preg_replace`: the return value, the text in `result` on return and the
number of bytes of `result` that the text occupies, its terminator included (`0` when
nothing was stored). -/
structure ReplaceResult where
  res : Int
  result : String
  written : Nat

/-- What `sprintf(result, ...)` leaves: the text and its size with the terminator. -/
def sprintf_result (res : Int) (text : String) : ReplaceResult :=
  ⟨res, text, text.length + 1⟩

/-- The function `preg_replace(re, replacement, subject, result, pcre2_result_len)`;
the argument `result` is the content of the buffer on entry. -/
def preg_replace (E : Pcre2) (re replacement subject result : String)
    (pcre2_result_len : Nat) : ReplaceResult :=
  match E.compile re with
  | .ok _ =>
    match pcre2_substitute E re PCRE2_SUBSTITUTE_GLOBAL subject replacement
        pcre2_result_len with
    | (rc, out) =>
      if rc < SUCCESS then
        let reg_error := E.get_error_message rc 4096
        sprintf_result INVALID_VALUE ("Error during replace: '" ++ reg_error ++ "'.")
      else
        match out with
        | some text => ⟨SUCCESS, text, text.length + 1⟩
        | none => ⟨SUCCESS, result, 0⟩
  | .error (errorcode, erroroffset) =>
    let reg_error := E.get_error_message errorcode 4096
    sprintf_result INVALID_VALUE
      ("Error compiling regexp at offset #" ++ toString erroroffset ++ ": '"
        ++ reg_error ++ "'.")

/-! ## A PCRE2 stand-in for plain-text patterns -/

/-- Characters with a special meaning in a pattern or a replacement text. -/
def isMeta (c : Char) : Bool :=
  c = '\\' || c = '^' || c = '$' || c = '.' || c = '[' || c = ']' || c = '|' || c = '('
    || c = ')' || c = '?' || c = '*' || c = '+' || c = '{' || c = '}'

/-- Replace, scanning from the left, the occurrences of the non-empty text `pat` by
`rep`: every non-overlapping one when `global` is set, the first one otherwise; also
counts the replacements. `fuel` bounds the scan. -/
def replace_all (pat rep : List Char) (global : Bool) :
    Nat → List Char → List Char × Nat
  | 0, cs => (cs, 0)
  | _ + 1, [] => ([], 0)
  | fuel + 1, c :: cs =>
    if pat.isPrefixOf (c :: cs) then
      if global then
        let r := replace_all pat rep global fuel ((c :: cs).drop pat.length)
        (rep ++ r.1, r.2 + 1)
      else (rep ++ (c :: cs).drop pat.length, 1)
    else
      let r := replace_all pat rep global fuel cs
      (c :: r.1, r.2)

/-- A PCRE2 stand-in for patterns that are plain text: a non-empty pattern without
special characters compiles and matches its own text, anything else is reported as a
compile error at offset `0`; a replacement text with a special character is refused. -/
def literalEngine : Pcre2 where
  compile := fun re =>
    if re.data ≠ [] ∧ re.data.all (fun c => !isMeta c) then .ok () else .error (101, 0)
  exec := fun re subject =>
    if (replace_all re.data [] false (subject.length + 1) subject.data).2 = 1 then
      ⟨1, fun i => if i = 0 then some re else none⟩
    else ⟨PCRE2_ERROR_NOMATCH, fun _ => none⟩
  substitute := fun re options subject replacement =>
    if replacement.data.all (fun c => !isMeta c) then
      let r := replace_all re.data replacement.data
        (options / PCRE2_SUBSTITUTE_GLOBAL % 2 = 1) (subject.length + 1) subject.data
      .ok (String.mk r.1, r.2)
    else .error (-35)
  get_error_message := fun code _ =>
    if code = PCRE2_ERROR_NOMATCH then "no match"
    else if code = PCRE2_ERROR_NOMEMORY then "no more memory"
    else "unknown error"

/-! ## Linked lists on the heap

Every node kind has its own address space. A pointer is an optional address (`none` is
`NULL`); a heap maps the live addresses of a kind to the fields the cleanup code reads.
Reading or releasing an address that is not live, and reading through `NULL`, are
undefined: the functions below then return `none`. Loops and recursion are bounded by a
`fuel` argument (`none` when it runs out). -/

/-- Address of a heap block. -/
abbrev Addr := Nat

/-- A C pointer: `none` is `NULL`. -/
abbrev Ptr := Option Addr

/-- The node kinds whose cleanup only reads `next`: `RC_PROFILE`, `RD_PROFILE`,
`VOLUME_PROFILE`, `NVMET_PORTS` and `NVMET_ALLOWED_HOST`. -/
inductive Kind where
  | rc
  | rd
  | vp
  | ports
  | hosts
deriving DecidableEq, Repr

/-- The fields of a `struct NVMET_PROFILE` read by `clean_nvmet`. -/
structure NVMET_PROFILE where
  allowed_hosts : Ptr
  assigned_ports : Ptr
  next : Ptr
deriving DecidableEq, Repr

/-- A heap block handed to `free`. -/
inductive Block where
  | link (k : Kind) (a : Addr)
  | profile (a : Addr)
deriving DecidableEq, Repr

/-- The memory seen by the cleanup functions: for each kind the `next` field of every
live node, the live `NVMET_PROFILE` nodes, and the calls of `free` so far, oldest
first. -/
@[ext]
structure Mem where
  links : Kind → Addr → Option Ptr
  nvmet : Addr → Option NVMET_PROFILE
  freed : List Block

/-- The call `free(p)` for a live node `p` of kind `k`. -/
def free_link (k : Kind) (m : Mem) (a : Addr) : Option Mem :=
  match m.links k a with
  | none => none
  | some _ =>
    some { m with
      links := fun k1 a1 => if k1 = k ∧ a1 = a then none else m.links k1 a1
      freed := m.freed ++ [Block.link k a] }

/-- The assignment `a->next = p` for a live node `a` of kind `k`. -/
def set_next (k : Kind) (m : Mem) (a : Addr) (p : Ptr) : Option Mem :=
  match m.links k a with
  | none => none
  | some _ =>
    some { m with links := fun k1 a1 => if k1 = k ∧ a1 = a then some p else m.links k1 a1 }

/-- The loop `while (current->next->next != NULL) current = current->next;`: the value
of `current` when the loop is left. -/
def find_penultimate (k : Kind) : Nat → Mem → Addr → Option Addr
  | 0, _, _ => none
  | fuel + 1, m, current =>
    match m.links k current with
    | some (some nx) =>
      match m.links k nx with
      | some (some _) => find_penultimate k fuel m nx
      | some none => some current
      | none => none
    | _ => none

/-- The common body of `clean_rc`, `clean_rd`, `clean_vp`, `clean_ports` and
`clean_hosts`, which differ in the node type only. -/
def clean_list (k : Kind) : Nat → Mem → Ptr → Option Mem
  | 0, _, _ => none
  | _, _, none => none
  | fuel + 1, m, some head =>
    match m.links k head with
    | none => none
    | some none => free_link k m head
    | some (some _) =>
      match find_penultimate k fuel m head with
      | none => none
      | some current =>
        match m.links k current with
        | none => none
        | some none => clean_list k fuel m (some head)
        | some (some last) =>
          match free_link k m last with
          | none => none
          | some m1 =>
            match set_next k m1 current none with
            | none => none
            | some m2 => clean_list k fuel m2 (some head)

/-- The function `clean_rc(head)`. -/
def clean_rc (fuel : Nat) (m : Mem) (head : Ptr) : Option Mem := clean_list Kind.rc fuel m head

/-- The function `clean_rd(head)`. -/
def clean_rd (fuel : Nat) (m : Mem) (head : Ptr) : Option Mem := clean_list Kind.rd fuel m head

/-- The function `clean_vp(head)`. -/
def clean_vp (fuel : Nat) (m : Mem) (head : Ptr) : Option Mem := clean_list Kind.vp fuel m head

/-- The function `clean_ports(head)`. -/
def clean_ports (fuel : Nat) (m : Mem) (head : Ptr) : Option Mem :=
  clean_list Kind.ports fuel m head

/-- The function `clean_hosts(head)`. -/
def clean_hosts (fuel : Nat) (m : Mem) (head : Ptr) : Option Mem :=
  clean_list Kind.hosts fuel m head

/-- The cleanup function of the source for each node kind. -/
def clean_of : Kind → Nat → Mem → Ptr → Option Mem
  | Kind.rc => clean_rc
  | Kind.rd => clean_rd
  | Kind.vp => clean_vp
  | Kind.ports => clean_ports
  | Kind.hosts => clean_hosts

/-- The function `free_linked_lists(rc_head, rd_head, vp_head)`. -/
def free_linked_lists (fuel : Nat) (m : Mem) (rc_head rd_head vp_head : Ptr) : Option Mem :=
  (if rc_head ≠ none then clean_rc fuel m rc_head else some m).bind fun m1 =>
  (if rd_head ≠ none then clean_rd fuel m1 rd_head else some m1).bind fun m2 =>
  if vp_head ≠ none then clean_vp fuel m2 vp_head else some m2

/-- The call `free(p)` for a live `NVMET_PROFILE` node `p`. -/
def free_profile (m : Mem) (a : Addr) : Option Mem :=
  match m.nvmet a with
  | none => none
  | some _ =>
    some { m with
      nvmet := fun a1 => if a1 = a then none else m.nvmet a1
      freed := m.freed ++ [Block.profile a] }

/-- The guarded block of `clean_nvmet` on the profile node `a`:
`if (a->allowed_hosts != NULL) { clean_hosts(a->allowed_hosts); a->allowed_hosts = NULL; }`. -/
def clean_allowed_hosts (fuel : Nat) (m : Mem) (a : Addr) : Option Mem :=
  match m.nvmet a with
  | none => none
  | some nd =>
    if nd.allowed_hosts ≠ none then
      (clean_hosts fuel m nd.allowed_hosts).bind fun m1 =>
        match m1.nvmet a with
        | none => none
        | some nd1 =>
          some { m1 with
            nvmet := fun a1 => if a1 = a then some { nd1 with allowed_hosts := none }
              else m1.nvmet a1 }
    else some m

/-- The guarded block of `clean_nvmet` on the profile node `a`:
`if (a->assigned_ports != NULL) { clean_ports(a->assigned_ports); a->assigned_ports = NULL; }`. -/
def clean_assigned_ports (fuel : Nat) (m : Mem) (a : Addr) : Option Mem :=
  match m.nvmet a with
  | none => none
  | some nd =>
    if nd.assigned_ports ≠ none then
      (clean_ports fuel m nd.assigned_ports).bind fun m1 =>
        match m1.nvmet a with
        | none => none
        | some nd1 =>
          some { m1 with
            nvmet := fun a1 => if a1 = a then some { nd1 with assigned_ports := none }
              else m1.nvmet a1 }
    else some m

/-- The two guarded blocks of `clean_nvmet` on the profile node `a`, in the order of the
source: allowed hosts, then assigned ports. -/
def clean_sublists (fuel : Nat) (m : Mem) (a : Addr) : Option Mem :=
  (clean_allowed_hosts fuel m a).bind fun m1 => clean_assigned_ports fuel m1 a

/-- The loop `while (current->next->next != NULL) current = current->next;` of
`clean_nvmet`. -/
def find_penultimate_nvmet : Nat → Mem → Addr → Option Addr
  | 0, _, _ => none
  | fuel + 1, m, current =>
    match m.nvmet current with
    | some nd =>
      match nd.next with
      | some nx =>
        match m.nvmet nx with
        | some ndx =>
          match ndx.next with
          | some _ => find_penultimate_nvmet fuel m nx
          | none => some current
        | none => none
      | none => none
    | none => none

/-- The function `clean_nvmet(head)`. -/
def clean_nvmet : Nat → Mem → Ptr → Option Mem
  | 0, _, _ => none
  | _, _, none => none
  | fuel + 1, m, some head =>
    match m.nvmet head with
    | none => none
    | some nd =>
      match nd.next with
      | none => (clean_sublists fuel m head).bind fun m1 => free_profile m1 head
      | some _ =>
        match find_penultimate_nvmet fuel m head with
        | none => none
        | some current =>
          match m.nvmet current with
          | none => none
          | some ndc =>
            match ndc.next with
            | none => none
            | some last =>
              (clean_sublists fuel m last).bind fun m1 =>
                match m1.nvmet current with
                | none => none
                | some ndc1 =>
                  match ndc1.next with
                  | none => clean_nvmet fuel m1 (some head)
                  | some last1 =>
                    (free_profile m1 last1).bind fun m2 =>
                      match m2.nvmet current with
                      | none => none
                      | some ndc2 =>
                        clean_nvmet fuel
                          { m2 with
                            nvmet := fun a1 =>
                              if a1 = current then some { ndc2 with next := none }
                              else m2.nvmet a1 }
                          (some head)

/-- The function `free_nvmet_linked_lists(ports_head, nvmet_head)`. -/
def free_nvmet_linked_lists (fuel : Nat) (m : Mem) (ports_head nvmet_head : Ptr) :
    Option Mem :=
  (if ports_head ≠ none then clean_ports fuel m ports_head else some m).bind fun m1 =>
  if nvmet_head ≠ none then clean_nvmet fuel m1 nvmet_head else some m1

/-! ## Lists as seen in the heap -/

/-- The nodes `l` of kind `k` are chained in `m` from the pointer `p`, and the `next`
field of the last one is `q` (`p = q` for no node). -/
def IsSeg (k : Kind) (m : Mem) : Ptr → List Addr → Ptr → Prop
  | p, [], q => p = q
  | p, a :: as, q => p = some a ∧ ∃ nx, m.links k a = some nx ∧ IsSeg k m nx as q

/-- The pointer `p` is the head of the `NULL`-terminated (hence acyclic) list `l`. -/
def IsList (k : Kind) (m : Mem) (p : Ptr) (l : List Addr) : Prop := IsSeg k m p l none

/-- A profile node with the nodes of its two sub-lists. -/
structure Profile where
  addr : Addr
  hosts : List Addr
  ports : List Addr
deriving DecidableEq, Repr

/-- The profile nodes `ps` are chained in `m` from the pointer `p`, the `next` field of
the last one is `q`, and each node heads its `allowed_hosts` and `assigned_ports`
lists. -/
def IsProfileSeg (m : Mem) : Ptr → List Profile → Ptr → Prop
  | p, [], q => p = q
  | p, s :: ss, q =>
    p = some s.addr ∧ ∃ nd, m.nvmet s.addr = some nd ∧
      IsList Kind.hosts m nd.allowed_hosts s.hosts ∧
      IsList Kind.ports m nd.assigned_ports s.ports ∧
      IsProfileSeg m nd.next ss q

/-- The pointer `p` is the head of the `NULL`-terminated list of profiles `ps`. -/
def IsProfileList (m : Mem) (p : Ptr) (ps : List Profile) : Prop := IsProfileSeg m p ps none

/-- Single ownership: no profile node occurs twice, and no host node and no port node
belongs to two sub-lists or twice to one. -/
def ExclusivelyOwned (ps : List Profile) : Prop :=
  (ps.map Profile.addr).Nodup ∧ (ps.flatMap Profile.hosts).Nodup ∧
    (ps.flatMap Profile.ports).Nodup

/-- The blocks released for one profile: its host nodes last to first, its port nodes
last to first, then the profile node. -/
def profile_trace (s : Profile) : List Block :=
  s.hosts.reverse.map (Block.link Kind.hosts) ++ s.ports.reverse.map (Block.link Kind.ports)
    ++ [Block.profile s.addr]

/-- The blocks released for a list of profiles: last profile first. -/
def nvmet_trace (ps : List Profile) : List Block := ps.reverse.flatMap profile_trace

/-- Remove the nodes `l` of kind `k` from the heap. -/
def drop_links (k : Kind) (l : List Addr) (links : Kind → Addr → Option Ptr) :
    Kind → Addr → Option Ptr :=
  fun k1 a1 => if k1 = k ∧ a1 ∈ l then none else links k1 a1

/-- The memory after every node of the list `l` of kind `k` was released, last node
first. -/
def after_links (k : Kind) (l : List Addr) (m : Mem) : Mem where
  links := drop_links k l m.links
  nvmet := m.nvmet
  freed := m.freed ++ l.reverse.map (Block.link k)

/-- The memory after the profiles `ps` and all their sub-list nodes were released. -/
def after_nvmet (m : Mem) (ps : List Profile) : Mem where
  links := drop_links Kind.hosts (ps.flatMap Profile.hosts)
    (drop_links Kind.ports (ps.flatMap Profile.ports) m.links)
  nvmet := fun a => if a ∈ ps.map Profile.addr then none else m.nvmet a
  freed := m.freed ++ nvmet_trace ps

/-- An empty memory with no call of `free` yet. -/
def emptyMem : Mem := ⟨fun _ _ => none, fun _ => none, []⟩

/-- Allocate the list `l` of kind `k`, chained in order and `NULL`-terminated. -/
def alloc_list (k : Kind) : List Addr → Mem → Mem
  | [], m => m
  | [a], m => { m with links := fun k1 a1 => if k1 = k ∧ a1 = a then some none else m.links k1 a1 }
  | a :: b :: r, m =>
    let m1 := alloc_list k (b :: r) m
    { m1 with links := fun k1 a1 => if k1 = k ∧ a1 = a then some (some b) else m1.links k1 a1 }

/-- Allocate the profile list `ps` with its sub-lists. -/
def alloc_profiles : List Profile → Mem → Mem
  | [], m => m
  | s :: ss, m =>
    let m1 := alloc_list Kind.ports s.ports (alloc_list Kind.hosts s.hosts (alloc_profiles ss m))
    { m1 with
      nvmet := fun a1 =>
        if a1 = s.addr then
          some ⟨s.hosts.head?, s.ports.head?, (ss.head?).map Profile.addr⟩
        else m1.nvmet a1 }

/-- Two profiles, each with one allowed host and two assigned ports. -/
def two_profiles : List Profile := [⟨1, [10], [20, 21]⟩, ⟨2, [11], [22, 23]⟩]

/-- The list `two_profiles` allocated in an empty memory; its head is the node `1`. -/
def two_profiles_mem : Mem := alloc_profiles two_profiles emptyMem

/-! ## `clean_nvmet` with an assertion before each release of a profile -/

/-- The call `free(p)` for a profile node `p`, preceded by the assertion
`p->allowed_hosts == NULL && p->assigned_ports == NULL`; a failed assertion ends the run
(`none`). -/
def free_profile_checked (m : Mem) (a : Addr) : Option Mem :=
  match m.nvmet a with
  | none => none
  | some nd =>
    if nd.allowed_hosts = none ∧ nd.assigned_ports = none then free_profile m a else none

/-- The function `clean_nvmet(head)` with the assertion of `free_profile_checked` in
front of both calls `free(head)` and `free(current->next)`. -/
def clean_nvmet_checked : Nat → Mem → Ptr → Option Mem
  | 0, _, _ => none
  | _, _, none => none
  | fuel + 1, m, some head =>
    match m.nvmet head with
    | none => none
    | some nd =>
      match nd.next with
      | none => (clean_sublists fuel m head).bind fun m1 => free_profile_checked m1 head
      | some _ =>
        match find_penultimate_nvmet fuel m head with
        | none => none
        | some current =>
          match m.nvmet current with
          | none => none
          | some ndc =>
            match ndc.next with
            | none => none
            | some last =>
              (clean_sublists fuel m last).bind fun m1 =>
                match m1.nvmet current with
                | none => none
                | some ndc1 =>
                  match ndc1.next with
                  | none => clean_nvmet_checked fuel m1 (some head)
                  | some last1 =>
                    (free_profile_checked m1 last1).bind fun m2 =>
                      match m2.nvmet current with
                      | none => none
                      | some ndc2 =>
                        clean_nvmet_checked fuel
                          { m2 with
                            nvmet := fun a1 =>
                              if a1 = current then some { ndc2 with next := none }
                              else m2.nvmet a1 }
                          (some head)

/-! ## Directory scans -/

/-- The constant `FALSE` of `common.h`. -/
def FALSE : Int := 0

/-- The constant `TRUE` of `common.h`. -/
def TRUE : Int := 1

/-- The `errno` value `EPERM`. -/
def EPERM : Int := 1

/-- The `errno` value `ENOENT`. -/
def ENOENT : Int := 2

/-- A `struct dirent` produced by `scandir`: the address of its block and its `d_name`. -/
structure Dirent where
  addr : Addr
  d_name : String
deriving DecidableEq, Repr

/-- The test `strncmp(a, b, n) == 0`: the first `n` characters agree (a shorter string
counts with its end). -/
def strncmp_eq (a b : String) (n : Nat) : Bool := a.data.take n == b.data.take n

/-- The function `scandir_filter_no_dot(list)`. -/
def scandir_filter_no_dot (list : Dirent) : Int :=
  if strncmp_eq list.d_name "." 1 then FALSE else TRUE

/-- A block handed to `free` by `clean_scandir`: one entry, or the array itself. -/
inductive ScanBlock where
  | entry (a : Addr)
  | list
deriving DecidableEq, Repr

/-- Outcome of `clean_scandir`: the returned pointer (`none` is `NULL`) and the calls of
`free`, oldest first. -/
structure ScanResult where
  ret : Option (List Ptr)
  freed : List ScanBlock
deriving DecidableEq, Repr

/-- The loop `while (num--) { if (scanlist[num] != NULL) { free(scanlist[num]);
scanlist[num] = NULL; } }`, started with the given value of `num`. An index outside the
array and a second `free` of one block are undefined (`none`). -/
def clean_scandir_loop : List Ptr → Nat → List ScanBlock → Option (List ScanBlock)
  | _, 0, freed => some freed
  | scanlist, num + 1, freed =>
    match scanlist[num]? with
    | none => none
    | some none => clean_scandir_loop scanlist num freed
    | some (some a) =>
      if ScanBlock.entry a ∈ freed then none
      else clean_scandir_loop (scanlist.set num none) num (freed ++ [ScanBlock.entry a])

/-- The function `clean_scandir(scanlist, num)`; `scanlist` is the array of entry
pointers (`none` for a `NULL` array). A negative `num` makes the loop index the array
below its start, which is undefined (`none`). -/
def clean_scandir (scanlist : Option (List Ptr)) (num : Int) : Option ScanResult :=
  match scanlist with
  | none => some ⟨none, []⟩
  | some l =>
    if num < 0 then none
    else (clean_scandir_loop l num.toNat []).map fun freed => ⟨none, freed ++ [ScanBlock.list]⟩

/-- The loop `for (n = 0; n < i; n++) if (strcmp(list[n]->d_name, "rapiddisk_cache") ==
SUCCESS) { rc = SUCCESS; break; }`: the value of `rc` after it. -/
def find_rapiddisk_cache : List Dirent → Int → Int
  | [], rc => rc
  | e :: es, rc => if e.d_name = "rapiddisk_cache" then SUCCESS else find_rapiddisk_cache es rc

/-- The loop `for (n = 0; n < i; n++) if (strcmp(list[n]->d_name, "dm_writecache") ==
SUCCESS) rc = 1;`: the value of `rc` after it. -/
def find_dm_writecache : List Dirent → Int → Int
  | [], rc => rc
  | e :: es, rc => find_dm_writecache es (if e.d_name = "dm_writecache" then 1 else rc)

/-- The function `check_loaded_modules()`. `access_rc` is the value of
`access(SYS_RDSK, F_OK)`, `scan` the outcome of `scandir(SYS_MODULE, &list, NULL, NULL)`:
`none` for a negative return value, otherwise the entries of `list`. The result is
`none` when the release of the scan result is undefined. -/
def check_loaded_modules (access_rc : Int) (scan : Option (List Dirent)) : Option Int :=
  if access_rc = INVALID_VALUE then some (-EPERM)
  else
    match scan with
    | none => some (-ENOENT)
    | some list =>
      let rc := find_rapiddisk_cache list INVALID_VALUE
      if rc ≠ SUCCESS then
        (clean_scandir (some (list.map fun e => some e.addr)) list.length).map fun _ => rc
      else
        let rc1 := find_dm_writecache list rc
        (clean_scandir (some (list.map fun e => some e.addr)) list.length).map fun _ => rc1

/-! ## `split` -/

/-- One call of `strtok` on the text `s` still to be scanned: leading delimiters are
skipped; `none` (`NULL`) when nothing is left, otherwise the token up to the next
delimiter and the text after that delimiter, where the next call resumes. -/
def strtok (s delim : List Char) : Option (List Char × List Char) :=
  match s.dropWhile (fun c => c ∈ delim) with
  | [] => none
  | c :: cs =>
    some ((c :: cs).takeWhile (fun x => !decide (x ∈ delim)),
      ((c :: cs).dropWhile (fun x => !decide (x ∈ delim))).drop 1)

/-- Outcome of `split`: the return value and the elements stored in `output_arr`, in
index order. -/
structure SplitResult where
  ret : Int
  output_arr : List String
deriving DecidableEq, Repr

/-- The loop `for (i = 0; temp != NULL; i++) { output_arr[i] = temp; temp = strtok(NULL,
delim); }`: `temp` is the pending result of `strtok` (token and text left), `out` the
elements stored so far, so that `i` is `out.length`. -/
def split_loop (delim : List Char) :
    Nat → Option (List Char × List Char) → List String → Option (List String)
  | _, none, out => some out
  | 0, some _, _ => none
  | fuel + 1, some (temp, rest), out =>
    split_loop delim fuel (strtok rest delim) (out ++ [String.mk temp])

/-- The function `split(input_string, output_arr, delim)`. -/
def split (input_string delim : String) : Option SplitResult :=
  (split_loop delim.data (input_string.length + 1) (strtok input_string.data delim.data) []).map
    fun out => ⟨(out.length : Int) - 1, out⟩

/-- The maximal non-empty runs of non-delimiter characters of `input`, in order: the
pieces between delimiters, the empty ones left out. -/
def token_runs (input delim : List Char) : List (List Char) :=
  (input.splitOnP (fun c => decide (c ∈ delim))).filter (fun t => t ≠ [])

/-- The memory `two_profiles_mem` with, in addition, the `RC_PROFILE` list `1, 2` and
the one-node `VOLUME_PROFILE` list `5`; it holds no `RD_PROFILE` node. -/
def mixed_mem : Mem := alloc_list Kind.rc [1, 2] (alloc_list Kind.vp [5] two_profiles_mem)

/-! # Theorems -/

/-! ## Arithmetic of `validate_size` -/

theorem strtoull_le (s : String) : strtoull s ≤ ULLONG_MAX := by
  unfold strtoull
  simp only []
  split_ifs with h1 h2
  · exact le_refl _
  · exact Nat.le_of_lt_succ (Nat.mod_lt _ (by norm_num))
  · exact Nat.le_of_not_lt h1

theorem digitChar_isDigit (d : Nat) (h : d < 10) :
    (Nat.digitChar d).isDigit = true ∧ (Nat.digitChar d).toNat - '0'.toNat = d := by
  interval_cases d <;> decide

theorem strtoull_digits_append (xs ys : List Char) :
    ∀ (acc : Nat), (∀ c ∈ xs, c.isDigit = true) →
      strtoull_digits (xs ++ ys) acc = strtoull_digits ys (strtoull_digits xs acc) := by
  induction xs with
  | nil => intro acc _; rfl
  | cons c xs ih =>
    intro acc h
    have hc : c.isDigit = true := h c (List.mem_cons_self c xs)
    simp only [List.cons_append, strtoull_digits, hc, if_true]
    exact ih _ (fun c1 h1 => h c1 (List.mem_cons_of_mem c h1))

theorem strtoull_digits_decimal : ∀ (l : List Nat) (acc : Nat), (∀ d ∈ l, d < 10) →
    strtoull_digits (l.reverse.map Nat.digitChar) acc = acc * 10 ^ l.length + Nat.ofDigits 10 l := by
  intro l
  induction l with
  | nil => intro acc _; simp [strtoull_digits]
  | cons d t ih =>
    intro acc h
    have hd := digitChar_isDigit d (h d (List.mem_cons_self d t))
    rw [List.reverse_cons, List.map_append, strtoull_digits_append _ _ acc ?_,
      ih acc (fun e he => h e (List.mem_cons_of_mem d he))]
    · simp only [List.map_cons, List.map_nil, strtoull_digits, hd.1, if_true, hd.2,
        Nat.ofDigits_cons, List.length_cons]
      ring
    · intro c hc
      simp only [List.mem_map, List.mem_reverse] at hc
      obtain ⟨e, he, rfl⟩ := hc
      exact (digitChar_isDigit e (h e (List.mem_cons_of_mem d he))).1

theorem strtoull_digit_head (d : Nat) (h : d < 10) (rest : List Char) :
    strtoull (String.mk (Nat.digitChar d :: rest))
      = if ULLONG_MAX < strtoull_digits (Nat.digitChar d :: rest) 0 then ULLONG_MAX
        else strtoull_digits (Nat.digitChar d :: rest) 0 := by
  interval_cases d <;> rfl

/-- Every 64-bit magnitude is read back by `strtoull` from its decimal text. -/
theorem strtoull_decimal (n : Nat) (hn : n ≤ ULLONG_MAX) : strtoull (decimal n) = n := by
  have hlt : ∀ d ∈ Nat.digits 10 n, d < 10 := fun d hd => Nat.digits_lt_base (by norm_num) hd
  have hval : strtoull_digits ((Nat.digits 10 n).reverse.map Nat.digitChar) 0 = n := by
    rw [strtoull_digits_decimal _ 0 hlt, Nat.ofDigits_digits]
    simp
  unfold decimal
  cases hrev : (Nat.digits 10 n).reverse with
  | nil =>
    rw [hrev] at hval
    rw [← hval]
    rfl
  | cons d t =>
    rw [hrev] at hval
    have hd : d < 10 := hlt d (by
      have : d ∈ (Nat.digits 10 n).reverse := by rw [hrev]; exact List.mem_cons_self d t
      exact List.mem_reverse.1 this)
    rw [List.map_cons, strtoull_digit_head d hd, ← List.map_cons, hval, if_neg (by omega)]

theorem bitLength_le_of_lt : ∀ (fuel x p : Nat), x < 2 ^ p → bitLength fuel x ≤ p
  | 0, _, _, _ => by simp [bitLength]
  | fuel + 1, x, p, h => by
    unfold bitLength
    split_ifs with hx
    · exact Nat.zero_le _
    · cases p with
      | zero => simp at h; exact absurd h hx
      | succ p =>
        have h2 : x / 2 < 2 ^ p := by
          rw [Nat.div_lt_iff_lt_mul (by norm_num)]
          rw [pow_succ] at h
          exact h
        have := bitLength_le_of_lt fuel (x / 2) p h2
        omega

theorem roundToPrec_eq_self (p x : Nat) (h : x < 2 ^ p) : roundToPrec p x = x := by
  unfold roundToPrec
  simp only []
  rw [if_pos (bitLength_le_of_lt x x p h)]

theorem roundToPrec_mul_pow (p n j : Nat) (h : n < 2 ^ p) :
    roundToPrec p (n * 2 ^ j) = n * 2 ^ j := by
  unfold roundToPrec
  simp only []
  split_ifs with h1 h2
  · rfl
  · exfalso
    have hb : bitLength (n * 2 ^ j) (n * 2 ^ j) ≤ p + j :=
      bitLength_le_of_lt _ _ _ (by rw [pow_add]; exact Nat.mul_lt_mul_of_pos_right h (by positivity))
    have hsh : bitLength (n * 2 ^ j) (n * 2 ^ j) - p ≤ j := by omega
    have hdvd : 2 ^ (bitLength (n * 2 ^ j) (n * 2 ^ j) - p) ∣ n * 2 ^ j :=
      Dvd.dvd.mul_left (pow_dvd_pow 2 hsh) n
    have hr : n * 2 ^ j % 2 ^ (bitLength (n * 2 ^ j) (n * 2 ^ j) - p) = 0 :=
      Nat.mod_eq_zero_of_dvd hdvd
    rw [hr] at h2
    rcases h2 with h2 | ⟨h2, _⟩
    · exact absurd h2 (Nat.not_lt_zero _)
    · have : 0 < 2 ^ (bitLength (n * 2 ^ j) (n * 2 ^ j) - p - 1) := by positivity
      omega
  · have hb : bitLength (n * 2 ^ j) (n * 2 ^ j) ≤ p + j :=
      bitLength_le_of_lt _ _ _ (by rw [pow_add]; exact Nat.mul_lt_mul_of_pos_right h (by positivity))
    have hsh : bitLength (n * 2 ^ j) (n * 2 ^ j) - p ≤ j := by omega
    have hdvd : 2 ^ (bitLength (n * 2 ^ j) (n * 2 ^ j) - p) ∣ n * 2 ^ j :=
      Dvd.dvd.mul_left (pow_dvd_pow 2 hsh) n
    exact Nat.div_mul_cancel hdvd

theorem validate_size_of_number (E : Pcre2) (p NAMELEN : Nat) (re subject err g : String)
    (hm : MatchesNumber E re subject g) :
    validate_size E p NAMELEN re subject err = ⟨some (strtoull g), err⟩ := by
  obtain ⟨hc, hrc, hg⟩ := hm
  unfold validate_size
  rw [hc]
  simp only [hrc, hg]
  rfl

theorem validate_size_of_unit (E : Pcre2) (p NAMELEN : Nat) (re subject err g u : String)
    (hm : MatchesNumberUnit E re subject g u) :
    validate_size E p NAMELEN re subject err = ⟨convert_size p (strtoull g) u, err⟩ := by
  obtain ⟨hc, hrc, hg, hu⟩ := hm
  unfold validate_size
  rw [hc]
  simp only [hrc, hg, hu]
  rfl

theorem floorl_div_div (x : Nat) :
    floorl (ld_div_1024 (ld_div_1024 ⟨x, 0⟩)) = x / 1048576 := by
  show x / 2 ^ (0 + 10 + 10) = x / 1048576
  norm_num

theorem ull_of_floor_of_lt (v : Nat) (h : v < 2 ^ 64) : ull_of_floor v = some v := by
  unfold ull_of_floor ULLONG_MAX
  rw [if_pos (by omega)]


theorem scaled_exact (p x : Nat) (hx : x < 2 ^ p) (hfit : x / 1048576 < 2 ^ 64) :
    ull_of_floor (floorl (ld_div_1024 (ld_div_1024 ⟨roundToPrec p x, 0⟩)))
      = some (x / 1048576) := by
  rw [roundToPrec_eq_self p x hx, floorl_div_div]
  exact ull_of_floor_of_lt _ hfit

theorem div_lt_of_scale (n s : Nat) (hn : n ≤ ULLONG_MAX) (hs : s ≤ 1048576) :
    n * s / 1048576 < 2 ^ 64 := by
  have hlt : n < 2 ^ 64 := by unfold ULLONG_MAX at hn; omega
  have h1 : n * s ≤ n * 1048576 := Nat.mul_le_mul_left n hs
  have h2 : n * s / 1048576 ≤ n := by
    calc n * s / 1048576 ≤ n * 1048576 / 1048576 := Nat.div_le_div_right h1
      _ = n := Nat.mul_div_cancel n (by norm_num)
  exact lt_of_le_of_lt h2 hlt

theorem convert_size_B (p n : Nat) (hp : 64 ≤ p) (hn : n ≤ ULLONG_MAX) :
    convert_size p n "B" = some (n / 1048576) := by
  have hlt : n < 2 ^ 64 := by unfold ULLONG_MAX at hn; omega
  have hnp : n < 2 ^ p := lt_of_lt_of_le hlt (Nat.pow_le_pow_right (by norm_num) hp)
  have h : convert_size p n "B"
      = ull_of_floor (floorl (ld_div_1024 (ld_div_1024 ⟨roundToPrec p n, 0⟩))) := rfl
  rw [h]
  exact scaled_exact p n hnp (lt_of_le_of_lt (Nat.div_le_self _ _) hlt)

theorem convert_size_KB (p n : Nat) (hn : n ≤ ULLONG_MAX) (hx : n * 1000 < 2 ^ p) :
    convert_size p n "KB" = some (n * 1000 / 1048576) := by
  have hnp : n < 2 ^ p := lt_of_le_of_lt (Nat.le_mul_of_pos_right n (by norm_num)) hx
  have h : convert_size p n "KB" = ull_of_floor (floorl (ld_div_1024 (ld_div_1024
      ⟨roundToPrec p (roundToPrec p n * 1000), 0⟩))) := rfl
  rw [h, roundToPrec_eq_self p n hnp]
  exact scaled_exact p _ hx (div_lt_of_scale n 1000 hn (by norm_num))

theorem convert_size_KiB (p n : Nat) (hp : 64 ≤ p) (hn : n ≤ ULLONG_MAX) :
    convert_size p n "KiB" = some (n * 1024 / 1048576) := by
  have hlt : n < 2 ^ 64 := by unfold ULLONG_MAX at hn; omega
  have hnp : n < 2 ^ p := lt_of_lt_of_le hlt (Nat.pow_le_pow_right (by norm_num) hp)
  have h : convert_size p n "KiB" = ull_of_floor (floorl (ld_div_1024 (ld_div_1024
      ⟨roundToPrec p (roundToPrec p n * 1024), 0⟩))) := rfl
  have h10 : (1024 : Nat) = 2 ^ 10 := by norm_num
  rw [h, roundToPrec_eq_self p n hnp, h10, roundToPrec_mul_pow p n 10 hnp, ← h10,
    floorl_div_div]
  exact ull_of_floor_of_lt _ (div_lt_of_scale n 1024 hn (by norm_num))

theorem convert_size_MB (p n : Nat) (hn : n ≤ ULLONG_MAX) (hx : n * 1000000 < 2 ^ p) :
    convert_size p n "MB" = some (n * 1000000 / 1048576) := by
  have hx1 : n * 1000 < 2 ^ p := lt_of_le_of_lt (Nat.mul_le_mul_left n (by norm_num)) hx
  have hnp : n < 2 ^ p := lt_of_le_of_lt (Nat.le_mul_of_pos_right n (by norm_num)) hx
  have h : convert_size p n "MB" = ull_of_floor (floorl (ld_div_1024 (ld_div_1024
      ⟨roundToPrec p (roundToPrec p (roundToPrec p n * 1000) * 1000), 0⟩))) := rfl
  have e : n * 1000 * 1000 = n * 1000000 := by ring
  rw [h, roundToPrec_eq_self p n hnp, roundToPrec_eq_self p _ hx1, e]
  exact scaled_exact p _ hx (div_lt_of_scale n 1000000 hn (by norm_num))

theorem convert_size_GB (p n : Nat) (hx : n * 1000000000 < 2 ^ p)
    (hfit : n * 1000000000 / 1048576 < 2 ^ 64) :
    convert_size p n "GB" = some (n * 1000000000 / 1048576) := by
  have hx2 : n * 1000000 < 2 ^ p := lt_of_le_of_lt (Nat.mul_le_mul_left n (by norm_num)) hx
  have hx1 : n * 1000 < 2 ^ p := lt_of_le_of_lt (Nat.mul_le_mul_left n (by norm_num)) hx
  have hnp : n < 2 ^ p := lt_of_le_of_lt (Nat.le_mul_of_pos_right n (by norm_num)) hx
  have h : convert_size p n "GB" = ull_of_floor (floorl (ld_div_1024 (ld_div_1024
      ⟨roundToPrec p (roundToPrec p (roundToPrec p (roundToPrec p n * 1000) * 1000) * 1000),
        0⟩))) := rfl
  have e2 : n * 1000 * 1000 = n * 1000000 := by ring
  have e3 : n * 1000000 * 1000 = n * 1000000000 := by ring
  rw [h, roundToPrec_eq_self p n hnp, roundToPrec_eq_self p _ hx1, e2,
    roundToPrec_eq_self p _ hx2, e3]
  exact scaled_exact p _ hx hfit

theorem convert_size_unknown (p n : Nat) (u : String) (hu : u ∉ size_units) :
    convert_size p n u = some 0 := by
  simp only [size_units, List.mem_cons, List.mem_singleton, List.not_mem_nil, or_false,
    not_or] at hu
  obtain ⟨h1, h2, h3, h4, h5, h6, h7⟩ := hu
  unfold convert_size
  simp only [h1, h2, h3, h4, h5, h6, h7, if_false]

/-! ## `validate_size` (claims C1 to C6) -/

/-- C1, counterexample: the subject `18014398509481984GiB` (magnitude `2 ^ 54`) matches
the size grammar, and `validate_size` returns `0`, not `2 ^ 54 * 1024`: the product
`hsize * 1024` wraps around in `unsigned long long`. -/
theorem validate_size_GiB_wraps :
    MatchesNumberUnit sizeEngine size_pattern "18014398509481984GiB" "18014398509481984" "GiB"
    ∧ strtoull "18014398509481984" = 2 ^ 54
    ∧ (validate_size sizeEngine 64 256 size_pattern "18014398509481984GiB" "").res = some 0
    ∧ 2 ^ 54 * 1024 ≠ 0 := by
  refine ⟨⟨rfl, rfl, rfl, rfl⟩, by decide, by decide, by decide⟩

/-- C1, amended: when the match yields the magnitude `n` and the unit token `GiB`, and
`n * 1024` fits in 64 bits, `validate_size` returns exactly `n * 1024`. -/
theorem validate_size_GiB (E : Pcre2) (p NAMELEN : Nat) (re subject err g : String) (n : Nat)
    (hm : MatchesNumberUnit E re subject g "GiB") (hn : strtoull g = n)
    (hfit : n * 1024 < 2 ^ 64) :
    (validate_size E p NAMELEN re subject err).res = some (n * 1024) := by
  rw [validate_size_of_unit E p NAMELEN re subject err g "GiB" hm, hn]
  show some (n * 1024 % 2 ^ 64) = some (n * 1024)
  rw [Nat.mod_eq_of_lt hfit]

/-- Witness for `validate_size_GiB`: the subject `5GiB` gives `5120`. -/
theorem validate_size_GiB_witness :
    (validate_size sizeEngine 64 256 size_pattern "5GiB" "").res = some 5120 :=
  validate_size_GiB sizeEngine 64 256 size_pattern "5GiB" "" "5" 5 ⟨rfl, rfl, rfl, rfl⟩
    (by decide) (by decide)

/-- C2, counterexample: on the subject `10GB` the size grammar yields magnitude `10` and
unit `GB`, and `validate_size` returns `9536`, not `9537`; `9536` is the floor of
`10000000000 / 1048576`. -/
theorem validate_size_10GB_not_9537 :
    MatchesNumberUnit sizeEngine size_pattern "10GB" "10" "GB"
    ∧ (validate_size sizeEngine 64 256 size_pattern "10GB" "").res = some 9536
    ∧ (validate_size sizeEngine 64 256 size_pattern "10GB" "").res ≠ some 9537
    ∧ 10000000000 / 1048576 = 9536 := by
  refine ⟨⟨rfl, rfl, rfl, rfl⟩, by decide, by decide, by decide⟩

/-- C2, amended: `validate_size` applied to the size grammar and the subject `10GB`
returns `9536`, which is the floor of `10000000000 / 1048576`, for every `long double`
of at least 64 significant bits. -/
theorem validate_size_10GB (p NAMELEN : Nat) (err : String) (hp : 64 ≤ p) :
    (validate_size sizeEngine p NAMELEN size_pattern "10GB" err).res = some 9536
    ∧ 10000000000 / 1048576 = 9536 := by
  have hm : MatchesNumberUnit sizeEngine size_pattern "10GB" "10" "GB" := ⟨rfl, rfl, rfl, rfl⟩
  have hn : strtoull "10" = 10 := by decide
  have h64 : (2 : Nat) ^ 64 ≤ 2 ^ p := Nat.pow_le_pow_right (by norm_num) hp
  refine ⟨?_, by decide⟩
  rw [validate_size_of_unit sizeEngine p NAMELEN size_pattern "10GB" err "10" "GB" hm, hn]
  show convert_size p 10 "GB" = some 9536
  rw [convert_size_GB p 10 (lt_of_lt_of_le (by norm_num) h64) (by norm_num)]

/-- Witness for `validate_size_10GB` with the 64-bit significand of the x87 format. -/
theorem validate_size_10GB_witness :
    (validate_size sizeEngine 64 256 size_pattern "10GB" "").res = some 9536
    ∧ 10000000000 / 1048576 = 9536 :=
  validate_size_10GB 64 256 "" (by decide)

set_option maxRecDepth 20000 in
/-- C3, counterexample: the subject `18446744073709551615GB` yields the magnitude
`2 ^ 64 - 1` and the unit `GB`; the floor of `n * 1000000000 / 1048576` does not fit in
64 bits, and the value returned by `validate_size` is undefined. -/
theorem validate_size_GB_out_of_range :
    MatchesNumberUnit sizeEngine size_pattern "18446744073709551615GB"
      "18446744073709551615" "GB"
    ∧ strtoull "18446744073709551615" = 18446744073709551615
    ∧ (validate_size sizeEngine 64 256 size_pattern "18446744073709551615GB" "").res = none
    ∧ (validate_size sizeEngine 64 256 size_pattern "18446744073709551615GB" "").res
        ≠ some (18446744073709551615 * 1000000000 / 1048576)
    ∧ ULLONG_MAX < 18446744073709551615 * 1000000000 / 1048576 := by
  refine ⟨⟨rfl, rfl, rfl, rfl⟩, by decide, by decide, by decide, by decide⟩

/-- With the 64-bit significand of the x87 format the product `n * 1000` is rounded for
large `n`: the subject `147573952589760299KB` gives `140737488355408`, one more than the
floor of `147573952589760299 * 1000 / 1048576`. -/
theorem validate_size_KB_rounds :
    (validate_size sizeEngine 64 256 size_pattern "147573952589760299KB" "").res
      = some 140737488355408
    ∧ 147573952589760299 * 1000 / 1048576 = 140737488355407 := by
  refine ⟨by decide, by decide⟩

/-- C3, amended: when the match yields the magnitude `n` and a unit token among `B`,
`KB`, `KiB`, `MB`, `GB` with scale `s` (1, 1000, 1024, 1000000, 1000000000), and the
`long double` has at least 64 significant bits, `validate_size` returns the floor of
`n * s / 1048576` provided the product `n * s` is exact in the `long double` (always for
`B` and `KiB`, otherwise when `n * s < 2 ^ LDBL_MANT_DIG`) and, for `GB`, the quotient
fits in 64 bits. -/
theorem validate_size_scaled (E : Pcre2) (p NAMELEN : Nat) (re subject err g u : String)
    (n s : Nat) (hp : 64 ≤ p) (hm : MatchesNumberUnit E re subject g u) (hn : strtoull g = n)
    (hu : (u, s) ∈ [("B", 1), ("KB", 1000), ("KiB", 1024), ("MB", 1000000),
      ("GB", 1000000000)])
    (hexact : u = "B" ∨ u = "KiB" ∨ n * s < 2 ^ p)
    (hfit : u = "GB" → n * s / 1048576 < 2 ^ 64) :
    (validate_size E p NAMELEN re subject err).res = some (n * s / 1048576) := by
  have hle : n ≤ ULLONG_MAX := hn ▸ strtoull_le g
  rw [validate_size_of_unit E p NAMELEN re subject err g u hm, hn]
  show convert_size p n u = some (n * s / 1048576)
  simp only [List.mem_cons, List.mem_singleton, Prod.mk.injEq, List.not_mem_nil,
    or_false] at hu
  rcases hu with ⟨rfl, rfl⟩ | ⟨rfl, rfl⟩ | ⟨rfl, rfl⟩ | ⟨rfl, rfl⟩ | ⟨rfl, rfl⟩
  · rw [Nat.mul_one]
    exact convert_size_B p n hp hle
  · rcases hexact with h | h | h
    · exact absurd h (by decide)
    · exact absurd h (by decide)
    · exact convert_size_KB p n hle h
  · exact convert_size_KiB p n hp hle
  · rcases hexact with h | h | h
    · exact absurd h (by decide)
    · exact absurd h (by decide)
    · exact convert_size_MB p n hle h
  · rcases hexact with h | h | h
    · exact absurd h (by decide)
    · exact absurd h (by decide)
    · exact convert_size_GB p n h (hfit rfl)

/-- Witness for `validate_size_scaled`: the subject `3000000KB` gives the floor of
`3000000 * 1000 / 1048576`, which is `2861`. -/
theorem validate_size_scaled_witness :
    (validate_size sizeEngine 64 256 size_pattern "3000000KB" "").res
      = some (3000000 * 1000 / 1048576) :=
  validate_size_scaled sizeEngine 64 256 size_pattern "3000000KB" "" "3000000" "KB"
    3000000 1000 (by decide) ⟨rfl, rfl, rfl, rfl⟩ (by decide) (by decide)
    (Or.inr (Or.inr (by decide))) (fun h => absurd h (by decide))

/-- C4: when the match yields the magnitude `n` alone, and when it yields the magnitude
`n` with the unit token `MiB`, `validate_size` returns `n` unchanged; both results are
the same. -/
theorem validate_size_plain_and_MiB (E : Pcre2) (p NAMELEN : Nat)
    (re s1 s2 err g1 g2 : String) (n : Nat)
    (h1 : MatchesNumber E re s1 g1) (hn1 : strtoull g1 = n)
    (h2 : MatchesNumberUnit E re s2 g2 "MiB") (hn2 : strtoull g2 = n) :
    (validate_size E p NAMELEN re s1 err).res = some n
    ∧ (validate_size E p NAMELEN re s2 err).res = some n
    ∧ (validate_size E p NAMELEN re s1 err).res = (validate_size E p NAMELEN re s2 err).res := by
  have e1 : (validate_size E p NAMELEN re s1 err).res = some n := by
    rw [validate_size_of_number E p NAMELEN re s1 err g1 h1, hn1]
  have e2 : (validate_size E p NAMELEN re s2 err).res = some n := by
    rw [validate_size_of_unit E p NAMELEN re s2 err g2 "MiB" h2, hn2]
    rfl
  exact ⟨e1, e2, e1.trans e2.symm⟩

/-- Witness for `validate_size_plain_and_MiB`: `2048` and `2048MiB` both give `2048`. -/
theorem validate_size_plain_and_MiB_witness :
    (validate_size sizeEngine 64 256 size_pattern "2048" "").res = some 2048
    ∧ (validate_size sizeEngine 64 256 size_pattern "2048MiB" "").res = some 2048
    ∧ (validate_size sizeEngine 64 256 size_pattern "2048" "").res
        = (validate_size sizeEngine 64 256 size_pattern "2048MiB" "").res :=
  validate_size_plain_and_MiB sizeEngine 64 256 size_pattern "2048" "2048MiB" "" "2048"
    "2048" 2048 ⟨rfl, rfl, rfl⟩ (by decide) ⟨rfl, rfl, rfl, rfl⟩ (by decide)

/-- C5: when the pattern compiles and the match fails (`pcre2_match` returns a negative
code, as for a subject that does not match), `validate_size` returns `0` and stores in
`error_message` the text `Error during matching of size in string '<subject>':
'<diagnostic>'.` built from the subject and the diagnostic of the engine. -/
theorem validate_size_no_match (E : Pcre2) (p NAMELEN : Nat) (re subject err : String)
    (hc : E.compile re = .ok ()) (hrc : (E.exec re subject).rc < 0) :
    (validate_size E p NAMELEN re subject err).res = some 0
    ∧ (validate_size E p NAMELEN re subject err).error_message
        = "Error during matching of size in string '" ++ subject ++ "': '"
          ++ E.get_error_message (E.exec re subject).rc NAMELEN ++ "'." := by
  unfold validate_size
  rw [hc]
  simp only [hrc, if_true, and_self]

/-- Witness for `validate_size_no_match`: the empty subject. -/
theorem validate_size_no_match_witness :
    (validate_size sizeEngine 64 256 size_pattern "" "").res = some 0
    ∧ (validate_size sizeEngine 64 256 size_pattern "" "").error_message
        = "Error during matching of size in string '" ++ "" ++ "': '"
          ++ sizeEngine.get_error_message (sizeEngine.exec size_pattern "").rc 256 ++ "'." :=
  validate_size_no_match sizeEngine 64 256 size_pattern "" "" rfl (by decide)

/-- C6: when the match yields a magnitude and a unit token that is none of `B`, `KB`,
`KiB`, `MB`, `MiB`, `GB`, `GiB` (compared as whole tokens, case-sensitively),
`validate_size` returns `0` and leaves `error_message` as it was. -/
theorem validate_size_unknown_unit (E : Pcre2) (p NAMELEN : Nat)
    (re subject err g u : String)
    (hm : MatchesNumberUnit E re subject g u) (hu : u ∉ size_units) :
    (validate_size E p NAMELEN re subject err).res = some 0
    ∧ (validate_size E p NAMELEN re subject err).error_message = err := by
  rw [validate_size_of_unit E p NAMELEN re subject err g u hm]
  exact ⟨convert_size_unknown p (strtoull g) u hu, rfl⟩

/-- Witness for `validate_size_unknown_unit`: the lower-case token `gib`. -/
theorem validate_size_unknown_unit_witness :
    (validate_size (stubEngine ⟨3, fun i => if i = 1 then some "7" else some "gib"⟩) 64 256
        "([0-9]+)([a-z]+)" "7gib" "untouched").res = some 0
    ∧ (validate_size (stubEngine ⟨3, fun i => if i = 1 then some "7" else some "gib"⟩) 64 256
        "([0-9]+)([a-z]+)" "7gib" "untouched").error_message = "untouched" :=
  validate_size_unknown_unit (stubEngine ⟨3, fun i => if i = 1 then some "7" else some "gib"⟩)
    64 256 "([0-9]+)([a-z]+)" "7gib" "untouched" "7" "gib" ⟨rfl, rfl, rfl, rfl⟩ (by decide)

/-! ## `preg_replace` (claims C7 to C9) -/

theorem pcre2_substitute_too_small (E : Pcre2) (re subject replacement out : String)
    (options count cap : Nat)
    (hs : E.substitute re options subject replacement = .ok (out, count))
    (hcap : cap ≤ out.length) :
    pcre2_substitute E re options subject replacement cap = (PCRE2_ERROR_NOMEMORY, none) := by
  unfold pcre2_substitute
  rw [hs]
  simp only []
  rw [if_neg (by omega)]

theorem pcre2_substitute_fits (E : Pcre2) (re subject replacement out : String)
    (options count cap : Nat)
    (hs : E.substitute re options subject replacement = .ok (out, count))
    (hcap : out.length + 1 ≤ cap) :
    pcre2_substitute E re options subject replacement cap = ((count : Int), some out) := by
  unfold pcre2_substitute
  rw [hs]
  simp only []
  rw [if_pos hcap]

/-- C7: when the pattern compiles and the full output of the global substitution is
longer than the capacity (or just as long, leaving no room for the terminator),
`preg_replace` returns `INVALID_VALUE` and `result` holds the text
`Error during replace: '<diagnostic>'.`, not a truncated output. -/
theorem preg_replace_capacity_too_small (E : Pcre2)
    (re replacement subject result out : String) (count cap : Nat)
    (hc : E.compile re = .ok ())
    (hs : E.substitute re PCRE2_SUBSTITUTE_GLOBAL subject replacement = .ok (out, count))
    (hcap : cap ≤ out.length) :
    (preg_replace E re replacement subject result cap).res = INVALID_VALUE
    ∧ (preg_replace E re replacement subject result cap).res ≠ SUCCESS
    ∧ (preg_replace E re replacement subject result cap).result
        = "Error during replace: '" ++ E.get_error_message PCRE2_ERROR_NOMEMORY 4096
          ++ "'." := by
  unfold preg_replace
  rw [hc]
  simp only []
  rw [pcre2_substitute_too_small E re subject replacement out _ count cap hs hcap]
  simp only []
  rw [if_pos (by decide)]
  exact ⟨rfl, by simp [sprintf_result, INVALID_VALUE, SUCCESS], rfl⟩

/-- Witness for `preg_replace_capacity_too_small`: the output `bar bar baz` of 11
characters and a capacity of 10. -/
theorem preg_replace_capacity_too_small_witness :
    (preg_replace literalEngine "foo" "bar" "foo foo baz" "" 10).res = INVALID_VALUE
    ∧ (preg_replace literalEngine "foo" "bar" "foo foo baz" "" 10).res ≠ SUCCESS
    ∧ (preg_replace literalEngine "foo" "bar" "foo foo baz" "" 10).result
        = "Error during replace: '" ++ literalEngine.get_error_message PCRE2_ERROR_NOMEMORY 4096
          ++ "'." :=
  preg_replace_capacity_too_small literalEngine "foo" "bar" "foo foo baz" "" "bar bar baz" 2 10
    rfl rfl (by decide)

/-- On the success path the text stored in `result` and its terminator take at most
`pcre2_result_len` bytes. -/
theorem preg_replace_success_written (E : Pcre2) (re replacement subject result : String)
    (cap : Nat) (h : (preg_replace E re replacement subject result cap).res = SUCCESS) :
    (preg_replace E re replacement subject result cap).written ≤ cap := by
  unfold preg_replace at h ⊢
  cases hc : E.compile re with
  | error e =>
    rw [hc] at h
    exact absurd h (by simp [sprintf_result, INVALID_VALUE, SUCCESS])
  | ok u =>
    rw [hc] at h
    simp only [] at h ⊢
    unfold pcre2_substitute at h ⊢
    cases hs : E.substitute re PCRE2_SUBSTITUTE_GLOBAL subject replacement with
    | error e =>
      rw [hs] at h
      simp only [] at h ⊢
      by_cases hlt : e < SUCCESS
      · rw [if_pos hlt] at h
        exact absurd h (by simp [sprintf_result, INVALID_VALUE, SUCCESS])
      · rw [if_neg hlt]
        exact Nat.zero_le _
    | ok oc =>
      obtain ⟨out, count⟩ := oc
      rw [hs] at h
      simp only [] at h ⊢
      by_cases hfit : out.length + 1 ≤ cap
      · rw [if_pos hfit]
        simp only []
        rw [if_neg (by simp [SUCCESS])]
        exact hfit
      · rw [if_neg hfit] at h
        simp only [] at h
        rw [if_pos (by decide)] at h
        exact absurd h (by simp [sprintf_result, INVALID_VALUE, SUCCESS])

/-- On both error paths `sprintf` stores at least the 25 characters of the fixed text
and a terminator, whatever the capacity. -/
theorem preg_replace_error_written (E : Pcre2) (re replacement subject result : String)
    (cap : Nat) (h : (preg_replace E re replacement subject result cap).res ≠ SUCCESS) :
    26 ≤ (preg_replace E re replacement subject result cap).written := by
  unfold preg_replace at h ⊢
  cases hc : E.compile re with
  | error e =>
    simp only [sprintf_result, String.length_append]
    have : ("Error compiling regexp at offset #" : String).length = 34 := by decide
    have : ("'." : String).length = 2 := by decide
    omega
  | ok u =>
    rw [hc] at h
    simp only [] at h ⊢
    cases hp : pcre2_substitute E re PCRE2_SUBSTITUTE_GLOBAL subject replacement cap with
    | mk rc out =>
      rw [hp] at h
      simp only [] at h ⊢
      by_cases hlt : rc < SUCCESS
      · rw [if_pos hlt]
        simp only [sprintf_result, String.length_append]
        have : ("Error during replace: '" : String).length = 23 := by decide
        have : ("'." : String).length = 2 := by decide
        omega
      · rw [if_neg hlt] at h
        cases out <;> exact absurd rfl h

/-- C8, failing input: with pattern `foo`, replacement `bar`, subject `foo foo baz` and a
capacity of 4 bytes, `preg_replace` returns `INVALID_VALUE` after `sprintf` stored the 39
characters of `Error during replace: 'no more memory'.` and a terminator, 40 bytes, in
`result`. -/
theorem preg_replace_error_overflows :
    (preg_replace literalEngine "foo" "bar" "foo foo baz" "" 4).res = INVALID_VALUE
    ∧ (preg_replace literalEngine "foo" "bar" "foo foo baz" "" 4).result
        = "Error during replace: 'no more memory'."
    ∧ (preg_replace literalEngine "foo" "bar" "foo foo baz" "" 4).written = 40
    ∧ ¬ (preg_replace literalEngine "foo" "bar" "foo foo baz" "" 4).written ≤ 4 := by
  refine ⟨by decide, by decide, by decide, by decide⟩

/-- C9: when the pattern compiles and the output of the global substitution (every
non-overlapping match replaced, option `PCRE2_SUBSTITUTE_GLOBAL`) fits the capacity with
its terminator, `preg_replace` stores exactly that output in `result` and returns
`SUCCESS`. -/
theorem preg_replace_global (E : Pcre2) (re replacement subject result out : String)
    (count cap : Nat)
    (hc : E.compile re = .ok ())
    (hs : E.substitute re PCRE2_SUBSTITUTE_GLOBAL subject replacement = .ok (out, count))
    (hcap : out.length + 1 ≤ cap) :
    (preg_replace E re replacement subject result cap).res = SUCCESS
    ∧ (preg_replace E re replacement subject result cap).result = out := by
  unfold preg_replace
  rw [hc]
  simp only []
  rw [pcre2_substitute_fits E re subject replacement out _ count cap hs hcap]
  simp only []
  rw [if_neg (by simp [SUCCESS])]
  exact ⟨rfl, rfl⟩

/-- Witness for `preg_replace_global`: pattern `foo`, replacement `bar`, subject
`foo foo baz` and capacity 64 give `bar bar baz`. -/
theorem preg_replace_global_witness :
    (preg_replace literalEngine "foo" "bar" "foo foo baz" "" 64).res = SUCCESS
    ∧ (preg_replace literalEngine "foo" "bar" "foo foo baz" "" 64).result = "bar bar baz" :=
  preg_replace_global literalEngine "foo" "bar" "foo foo baz" "" "bar bar baz" 2 64
    rfl rfl (by decide)

/-! ## Lists of link records -/

theorem IsSeg_append (k : Kind) (m : Mem) : ∀ (l1 l2 : List Addr) (p q : Ptr),
    IsSeg k m p (l1 ++ l2) q ↔ ∃ r, IsSeg k m p l1 r ∧ IsSeg k m r l2 q
  | [], l2, p, q => by simp [IsSeg]
  | a :: l1, l2, p, q => by
    simp only [List.cons_append, IsSeg]
    constructor
    · rintro ⟨hp, nx, hnx, hs⟩
      obtain ⟨r, h1, h2⟩ := (IsSeg_append k m l1 l2 nx q).1 hs
      exact ⟨r, ⟨hp, nx, hnx, h1⟩, h2⟩
    · rintro ⟨r, ⟨hp, nx, hnx, h1⟩, h2⟩
      exact ⟨hp, nx, hnx, (IsSeg_append k m l1 l2 nx q).2 ⟨r, h1, h2⟩⟩

theorem IsSeg_congr (k : Kind) (m m1 : Mem) : ∀ (l : List Addr) (p q : Ptr),
    (∀ a ∈ l, m1.links k a = m.links k a) → IsSeg k m p l q → IsSeg k m1 p l q
  | [], _, _, _, h => h
  | a :: l, _, q, hc, h => by
    simp only [IsSeg] at h ⊢
    obtain ⟨hp, nx, hnx, hs⟩ := h
    exact ⟨hp, nx, (hc a (List.mem_cons_self a l)).trans hnx,
      IsSeg_congr k m m1 l nx q (fun b hb => hc b (List.mem_cons_of_mem a hb)) hs⟩

theorem IsSeg_singleton (k : Kind) (m : Mem) (p q : Ptr) (a : Addr) :
    IsSeg k m p [a] q ↔ p = some a ∧ m.links k a = some q := by
  simp only [IsSeg]
  constructor
  · rintro ⟨hp, nx, hnx, rfl⟩
    exact ⟨hp, hnx⟩
  · rintro ⟨hp, hq⟩
    exact ⟨hp, q, hq, rfl⟩

theorem IsSeg_head_next (k : Kind) (m : Mem) (b y : Addr) (l : List Addr) (p : Ptr)
    (h : IsSeg k m p (b :: l) (some y)) : ∃ c, m.links k b = some (some c) := by
  cases l with
  | nil =>
    rw [IsSeg_singleton] at h
    exact ⟨y, h.2⟩
  | cons c l =>
    simp only [IsSeg] at h
    obtain ⟨_, nx, hnx, hc, _⟩ := h
    exact ⟨c, hc ▸ hnx⟩

theorem find_penultimate_spec (k : Kind) (m : Mem) (x y : Addr)
    (hy : m.links k y = some none) :
    ∀ (pre : List Addr) (h : Addr) (fuel : Nat),
      IsSeg k m (some h) (pre ++ [x]) (some y) → pre.length < fuel →
      find_penultimate k fuel m h = some x
  | [], h, fuel, hs, hf => by
    rw [List.nil_append, IsSeg_singleton] at hs
    obtain ⟨hh, hx⟩ := hs
    cases hh
    cases fuel with
    | zero => exact absurd hf (Nat.lt_irrefl _)
    | succ f => simp [find_penultimate, hx, hy]
  | a :: pre, h, fuel, hs, hf => by
    have hs1 : some h = some a ∧ ∃ nx, m.links k a = some nx ∧
        IsSeg k m nx (pre ++ [x]) (some y) := hs
    obtain ⟨hh, nx, hnx, hrest⟩ := hs1
    cases hh
    cases fuel with
    | zero => exact absurd hf (Nat.not_lt_zero _)
    | succ f =>
      cases hpre : pre ++ [x] with
      | nil => simp at hpre
      | cons b l =>
        rw [hpre] at hrest
        obtain ⟨c, hc⟩ := IsSeg_head_next k m b y l nx hrest
        have hb : nx = some b := by
          simp only [IsSeg] at hrest
          exact hrest.1
        have ih := find_penultimate_spec k m x y hy pre b f (by rw [hpre, ← hb]; exact hrest)
          (by simp at hf; omega)
        simp [find_penultimate, hnx, hb, hc, ih]

theorem IsSeg_first_next (k : Kind) (m : Mem) (h y : Addr) (l : List Addr) (hne : l ≠ [])
    (hs : IsSeg k m (some h) l (some y)) : ∃ c, m.links k h = some (some c) := by
  cases l with
  | nil => exact absurd rfl hne
  | cons b l =>
    have hb : some h = some b := by
      simp only [IsSeg] at hs
      exact hs.1
    cases hb
    exact IsSeg_head_next k m h y l (some h) hs

theorem after_links_step (k : Kind) (m : Mem) (init : List Addr) (x y : Addr)
    (hx : x ∈ init) :
    after_links k init
      { links := fun k1 a1 => if k1 = k ∧ a1 = x then some none
          else if k1 = k ∧ a1 = y then none else m.links k1 a1
        nvmet := m.nvmet
        freed := m.freed ++ [Block.link k y] }
    = after_links k (init ++ [y]) m := by
  ext k1 a1 : 3
  · simp only [after_links, drop_links, List.mem_append, List.mem_singleton]
    by_cases hk : k1 = k
    · by_cases h1 : a1 ∈ init
      · simp [hk, h1]
      · have hne : a1 ≠ x := fun h => h1 (h ▸ hx)
        by_cases h2 : a1 = y
        · subst h2
          simp [hk, h1, hne]
        · simp [hk, h1, h2, hne]
    · simp [hk]
  · rfl
  · simp [after_links]

theorem clean_list_spec (k : Kind) : ∀ (l : List Addr) (m : Mem) (head : Addr) (fuel : Nat),
    IsList k m (some head) l → l.Nodup → l.length ≤ fuel → l ≠ [] →
    clean_list k fuel m (some head) = some (after_links k l m) := by
  intro l
  induction l using List.reverseRecOn with
  | nil =>
    intro m head fuel _ _ _ hne
    exact absurd rfl hne
  | append_singleton init y ih =>
    intro m head fuel hl hnd hf _
    unfold IsList at hl
    rw [IsSeg_append] at hl
    obtain ⟨r, hinit, hlast⟩ := hl
    rw [IsSeg_singleton] at hlast
    obtain ⟨hr, hy⟩ := hlast
    subst hr
    cases fuel with
    | zero => simp at hf
    | succ f =>
      rcases List.eq_nil_or_concat init with hnil | ⟨pre, x, hpx⟩
      · subst hnil
        have hh : head = y := by
          have : some head = some y := hinit
          exact Option.some.inj this
        subst hh
        rw [clean_list]
        simp only [hy, free_link]
        congr 1
        ext k1 a1 : 3
        · simp [after_links, drop_links]
        · rfl
        · simp [after_links]
      · rw [List.concat_eq_append] at hpx
        subst hpx
        obtain ⟨c, hhead⟩ := IsSeg_first_next k m head y (pre ++ [x]) (by simp) hinit
        have hlen : pre.length < f := by
          simp only [List.length_append, List.length_singleton] at hf
          omega
        have hpen := find_penultimate_spec k m x y hy pre head f hinit hlen
        obtain ⟨r, hpre, hxs⟩ := (IsSeg_append k m pre [x] (some head) (some y)).1 hinit
        rw [IsSeg_singleton] at hxs
        obtain ⟨hr, hx⟩ := hxs
        subst hr
        have hnd1 : (pre ++ [x]).Nodup ∧ y ∉ pre ++ [x] := by
          rw [List.nodup_append] at hnd
          refine ⟨hnd.1, fun hmem => ?_⟩
          exact hnd.2.2 hmem (List.mem_singleton_self y)
        have hxy : x ≠ y := fun h => hnd1.2 (by simp [h])
        have hxpre : x ∉ pre := by
          have := hnd1.1
          rw [List.nodup_append] at this
          exact fun hmem => this.2.2 hmem (List.mem_singleton_self x)
        have hypre : y ∉ pre := fun hmem => hnd1.2 (List.mem_append_left _ hmem)
        have step : clean_list k (f + 1) m (some head) = clean_list k f
            { links := fun k1 a1 => if k1 = k ∧ a1 = x then some none
                else if k1 = k ∧ a1 = y then none else m.links k1 a1
              nvmet := m.nvmet
              freed := m.freed ++ [Block.link k y] } (some head) := by
          rw [clean_list]
          simp only [hhead, hpen, hx, free_link, hy, set_next, hxy, and_false, if_false]
        rw [step]
        rw [ih _ head f ?_ hnd1.1 ?_ (by simp)]
        · rw [after_links_step k m (pre ++ [x]) x y (by simp)]
        · unfold IsList
          rw [IsSeg_append]
          refine ⟨some x, ?_, ?_⟩
          · refine IsSeg_congr k m _ pre (some head) (some x) ?_ hpre
            intro a ha
            have h1 : a ≠ x := fun h => hxpre (h ▸ ha)
            have h2 : a ≠ y := fun h => hypre (h ▸ ha)
            simp [h1, h2]
          · rw [IsSeg_singleton]
            simp
        · simp only [List.length_append, List.length_singleton] at hf ⊢
          omega

/-! ## Lists of profiles -/

theorem IsProfileSeg_append (m : Mem) : ∀ (l1 l2 : List Profile) (p q : Ptr),
    IsProfileSeg m p (l1 ++ l2) q ↔ ∃ r, IsProfileSeg m p l1 r ∧ IsProfileSeg m r l2 q
  | [], l2, p, q => by simp [IsProfileSeg]
  | s :: l1, l2, p, q => by
    simp only [List.cons_append, IsProfileSeg]
    constructor
    · rintro ⟨hp, nd, hnd, hh, hpo, hs⟩
      obtain ⟨r, h1, h2⟩ := (IsProfileSeg_append m l1 l2 nd.next q).1 hs
      exact ⟨r, ⟨hp, nd, hnd, hh, hpo, h1⟩, h2⟩
    · rintro ⟨r, ⟨hp, nd, hnd, hh, hpo, h1⟩, h2⟩
      exact ⟨hp, nd, hnd, hh, hpo, (IsProfileSeg_append m l1 l2 nd.next q).2 ⟨r, h1, h2⟩⟩

theorem IsProfileSeg_congr (m m1 : Mem) : ∀ (l : List Profile) (p q : Ptr),
    (∀ s ∈ l, m1.nvmet s.addr = m.nvmet s.addr) →
    (∀ s ∈ l, ∀ a ∈ s.hosts, m1.links Kind.hosts a = m.links Kind.hosts a) →
    (∀ s ∈ l, ∀ a ∈ s.ports, m1.links Kind.ports a = m.links Kind.ports a) →
    IsProfileSeg m p l q → IsProfileSeg m1 p l q
  | [], _, _, _, _, _, h => h
  | s :: l, _, q, hn, hh, hp, h => by
    simp only [IsProfileSeg] at h ⊢
    obtain ⟨hp0, nd, hnd, hhosts, hports, hs⟩ := h
    refine ⟨hp0, nd, (hn s (List.mem_cons_self s l)).trans hnd, ?_, ?_, ?_⟩
    · exact IsSeg_congr Kind.hosts m m1 s.hosts _ _ (hh s (List.mem_cons_self s l)) hhosts
    · exact IsSeg_congr Kind.ports m m1 s.ports _ _ (hp s (List.mem_cons_self s l)) hports
    · exact IsProfileSeg_congr m m1 l nd.next q
        (fun t ht => hn t (List.mem_cons_of_mem s ht))
        (fun t ht => hh t (List.mem_cons_of_mem s ht))
        (fun t ht => hp t (List.mem_cons_of_mem s ht)) hs

theorem IsProfileSeg_singleton (m : Mem) (p q : Ptr) (s : Profile) :
    IsProfileSeg m p [s] q ↔ p = some s.addr ∧ ∃ nd, m.nvmet s.addr = some nd ∧
      IsList Kind.hosts m nd.allowed_hosts s.hosts ∧
      IsList Kind.ports m nd.assigned_ports s.ports ∧ nd.next = q := by
  simp only [IsProfileSeg]

theorem IsProfileSeg_first_next (m : Mem) (h y : Addr) (l : List Profile) (hne : l ≠ [])
    (hs : IsProfileSeg m (some h) l (some y)) :
    ∃ nd c, m.nvmet h = some nd ∧ nd.next = some c := by
  cases l with
  | nil => exact absurd rfl hne
  | cons s l =>
    simp only [IsProfileSeg] at hs
    obtain ⟨hp, nd, hnd, _, _, hrest⟩ := hs
    cases hp
    cases l with
    | nil => exact ⟨nd, y, hnd, hrest⟩
    | cons t l =>
      simp only [IsProfileSeg] at hrest
      exact ⟨nd, t.addr, hnd, hrest.1⟩

theorem find_penultimate_nvmet_spec (m : Mem) (x : Profile) (y : Addr) (ndy : NVMET_PROFILE)
    (hy : m.nvmet y = some ndy) (hyn : ndy.next = none) :
    ∀ (pre : List Profile) (h : Addr) (fuel : Nat),
      IsProfileSeg m (some h) (pre ++ [x]) (some y) → pre.length < fuel →
      find_penultimate_nvmet fuel m h = some x.addr
  | [], h, fuel, hs, hf => by
    rw [List.nil_append, IsProfileSeg_singleton] at hs
    obtain ⟨hh, nd, hnd, _, _, hnext⟩ := hs
    cases hh
    cases fuel with
    | zero => exact absurd hf (Nat.lt_irrefl _)
    | succ f => simp [find_penultimate_nvmet, hnd, hnext, hy, hyn]
  | s :: pre, h, fuel, hs, hf => by
    have hs1 : some h = some s.addr ∧ ∃ nd, m.nvmet s.addr = some nd ∧
        IsList Kind.hosts m nd.allowed_hosts s.hosts ∧
        IsList Kind.ports m nd.assigned_ports s.ports ∧
        IsProfileSeg m nd.next (pre ++ [x]) (some y) := hs
    obtain ⟨hh, nd, hnd, _, _, hrest⟩ := hs1
    cases hh
    cases fuel with
    | zero => exact absurd hf (Nat.not_lt_zero _)
    | succ f =>
      cases hpre : pre ++ [x] with
      | nil => simp at hpre
      | cons t l =>
        rw [hpre] at hrest
        have hb : nd.next = some t.addr := by
          simp only [IsProfileSeg] at hrest
          exact hrest.1
        rw [hb] at hrest
        obtain ⟨ndt, c, hndt, hc⟩ :=
          IsProfileSeg_first_next m t.addr y (t :: l) (by simp) hrest
        have ih := find_penultimate_nvmet_spec m x y ndy hy hyn pre t.addr f
          (by rw [hpre]; exact hrest) (by simp at hf; omega)
        simp [find_penultimate_nvmet, hnd, hb, hndt, hc, ih]

theorem IsList_nil (k : Kind) (m : Mem) (p : Ptr) : IsList k m p [] ↔ p = none := Iff.rfl

theorem IsList_ne_nil (k : Kind) (m : Mem) (p : Ptr) (l : List Addr) (hne : l ≠ [])
    (h : IsList k m p l) : ∃ a, p = some a := by
  cases l with
  | nil => exact absurd rfl hne
  | cons a l =>
    have h1 : IsSeg k m p (a :: l) none := h
    simp only [IsSeg] at h1
    exact ⟨a, h1.1⟩

theorem drop_links_nil (k : Kind) (links : Kind → Addr → Option Ptr) :
    drop_links k [] links = links := by
  funext k1 a1
  simp [drop_links]

theorem clean_allowed_hosts_spec (fuel : Nat) (m : Mem) (a : Addr) (nd : NVMET_PROFILE)
    (hs : List Addr) (hnd : m.nvmet a = some nd)
    (hl : IsList Kind.hosts m nd.allowed_hosts hs) (hnodup : hs.Nodup)
    (hf : hs.length ≤ fuel) :
    clean_allowed_hosts fuel m a = some
      { links := drop_links Kind.hosts hs m.links
        nvmet := fun a1 => if a1 = a then some { nd with allowed_hosts := none }
          else m.nvmet a1
        freed := m.freed ++ hs.reverse.map (Block.link Kind.hosts) } := by
  unfold clean_allowed_hosts
  rw [hnd]
  by_cases hne : hs = []
  · subst hne
    have hp : nd.allowed_hosts = none := hl
    simp only [hp, ne_eq, not_true_eq_false, if_false]
    congr 1
    ext a1 : 2
    · rw [drop_links_nil]
    · show m.nvmet a1 = if a1 = a then _ else m.nvmet a1
      by_cases h : a1 = a
      · subst h
        rw [if_pos rfl, hnd]
        cases nd
        simp only [] at hp
        subst hp
        rfl
      · rw [if_neg h]
    · simp
  · obtain ⟨h0, hp⟩ := IsList_ne_nil Kind.hosts m _ hs hne hl
    rw [hp] at hl
    simp only [hp, ne_eq, not_false_eq_true, if_true, reduceCtorEq]
    unfold clean_hosts
    rw [clean_list_spec Kind.hosts hs m h0 fuel hl hnodup hf hne]
    simp only [Option.bind, after_links, hnd]

theorem clean_assigned_ports_spec (fuel : Nat) (m : Mem) (a : Addr) (nd : NVMET_PROFILE)
    (ps : List Addr) (hnd : m.nvmet a = some nd)
    (hl : IsList Kind.ports m nd.assigned_ports ps) (hnodup : ps.Nodup)
    (hf : ps.length ≤ fuel) :
    clean_assigned_ports fuel m a = some
      { links := drop_links Kind.ports ps m.links
        nvmet := fun a1 => if a1 = a then some { nd with assigned_ports := none }
          else m.nvmet a1
        freed := m.freed ++ ps.reverse.map (Block.link Kind.ports) } := by
  unfold clean_assigned_ports
  rw [hnd]
  by_cases hne : ps = []
  · subst hne
    have hp : nd.assigned_ports = none := hl
    simp only [hp, ne_eq, not_true_eq_false, if_false]
    congr 1
    ext a1 : 2
    · rw [drop_links_nil]
    · show m.nvmet a1 = if a1 = a then _ else m.nvmet a1
      by_cases h : a1 = a
      · subst h
        rw [if_pos rfl, hnd]
        cases nd
        simp only [] at hp
        subst hp
        rfl
      · rw [if_neg h]
    · simp
  · obtain ⟨h0, hp⟩ := IsList_ne_nil Kind.ports m _ ps hne hl
    rw [hp] at hl
    simp only [hp, ne_eq, not_false_eq_true, if_true, reduceCtorEq]
    unfold clean_ports
    rw [clean_list_spec Kind.ports ps m h0 fuel hl hnodup hf hne]
    simp only [Option.bind, after_links, hnd]

theorem clean_sublists_spec (fuel : Nat) (m : Mem) (a : Addr) (nd : NVMET_PROFILE)
    (hs ps : List Addr) (hnd : m.nvmet a = some nd)
    (hlh : IsList Kind.hosts m nd.allowed_hosts hs) (hlp : IsList Kind.ports m nd.assigned_ports ps)
    (hnh : hs.Nodup) (hnp : ps.Nodup) (hfh : hs.length ≤ fuel) (hfp : ps.length ≤ fuel) :
    clean_sublists fuel m a = some
      { links := drop_links Kind.ports ps (drop_links Kind.hosts hs m.links)
        nvmet := fun a1 => if a1 = a then some ⟨none, none, nd.next⟩ else m.nvmet a1
        freed := m.freed ++ hs.reverse.map (Block.link Kind.hosts)
          ++ ps.reverse.map (Block.link Kind.ports) } := by
  unfold clean_sublists
  rw [clean_allowed_hosts_spec fuel m a nd hs hnd hlh hnh hfh]
  simp only [Option.bind]
  rw [clean_assigned_ports_spec fuel _ a { nd with allowed_hosts := none } ps (by simp) ?_ hnp hfp]
  · congr 1
    ext a1 : 2
    · rfl
    · by_cases h : a1 = a
      · simp [h]
      · simp [h]
    · rfl
  · refine IsSeg_congr Kind.ports m _ ps _ _ ?_ hlp
    intro b _
    simp [drop_links]

theorem ExclusivelyOwned_append_singleton (init : List Profile) (last : Profile)
    (h : ExclusivelyOwned (init ++ [last])) :
    ExclusivelyOwned init ∧ last.hosts.Nodup ∧ last.ports.Nodup
    ∧ (∀ s ∈ init, s.addr ≠ last.addr)
    ∧ (∀ s ∈ init, ∀ a ∈ s.hosts, a ∉ last.hosts)
    ∧ (∀ s ∈ init, ∀ a ∈ s.ports, a ∉ last.ports) := by
  obtain ⟨ha, hh, hp⟩ := h
  simp only [List.map_append, List.map_cons, List.map_nil, List.flatMap_append,
    List.flatMap_cons, List.flatMap_nil, List.append_nil] at ha hh hp
  rw [List.nodup_append] at ha hh hp
  refine ⟨⟨ha.1, hh.1, hp.1⟩, hh.2.1, hp.2.1, ?_, ?_, ?_⟩
  · intro s hs heq
    exact ha.2.2 (List.mem_map_of_mem _ hs) (by simp [heq])
  · intro s hs a hmem hl
    exact hh.2.2 (List.mem_flatMap.2 ⟨s, hs, hmem⟩) hl
  · intro s hs a hmem hl
    exact hp.2.2 (List.mem_flatMap.2 ⟨s, hs, hmem⟩) hl

theorem nvmet_trace_append_singleton (init : List Profile) (last : Profile) :
    nvmet_trace (init ++ [last]) = profile_trace last ++ nvmet_trace init := by
  simp [nvmet_trace]

theorem after_nvmet_single (m : Mem) (last : Profile) (nd : NVMET_PROFILE) :
    ({ links := drop_links Kind.ports last.ports (drop_links Kind.hosts last.hosts m.links)
       nvmet := fun a1 => if a1 = last.addr then none
         else if a1 = last.addr then some nd else m.nvmet a1
       freed := m.freed ++ last.hosts.reverse.map (Block.link Kind.hosts)
         ++ last.ports.reverse.map (Block.link Kind.ports) ++ [Block.profile last.addr] } : Mem)
    = after_nvmet m [last] := by
  apply Mem.ext
  · funext k1 a1
    simp only [after_nvmet, drop_links, List.flatMap_cons, List.flatMap_nil, List.append_nil]
    by_cases h1 : k1 = Kind.hosts ∧ a1 ∈ last.hosts
    · obtain ⟨rfl, h1⟩ := h1
      simp [h1]
    · by_cases h2 : k1 = Kind.ports ∧ a1 ∈ last.ports
      · simp [h1, h2]
      · simp [h1, h2]
  · funext a1
    simp only [after_nvmet, List.map_cons, List.map_nil, List.mem_singleton]
    by_cases h : a1 = last.addr
    · simp [h]
    · simp [h]
  · simp [after_nvmet, nvmet_trace, profile_trace]

theorem after_nvmet_step (m : Mem) (init : List Profile) (x last : Profile)
    (ndx nd : NVMET_PROFILE) (hx : x ∈ init) :
    after_nvmet
      { links := drop_links Kind.ports last.ports (drop_links Kind.hosts last.hosts m.links)
        nvmet := fun a1 => if a1 = x.addr then some ndx
          else if a1 = last.addr then none
          else if a1 = last.addr then some nd else m.nvmet a1
        freed := m.freed ++ last.hosts.reverse.map (Block.link Kind.hosts)
          ++ last.ports.reverse.map (Block.link Kind.ports) ++ [Block.profile last.addr] }
      init
    = after_nvmet m (init ++ [last]) := by
  apply Mem.ext
  · funext k1 a1
    simp only [after_nvmet, drop_links, List.flatMap_append, List.flatMap_cons,
      List.flatMap_nil, List.append_nil, List.mem_append]
    by_cases hk : k1 = Kind.hosts
    · subst hk
      by_cases h1 : a1 ∈ init.flatMap Profile.hosts
      · simp [h1]
      · by_cases h2 : a1 ∈ last.hosts
        · simp [h1, h2]
        · simp [h1, h2]
    · by_cases hk2 : k1 = Kind.ports
      · subst hk2
        by_cases h1 : a1 ∈ init.flatMap Profile.ports
        · simp [h1]
        · by_cases h2 : a1 ∈ last.ports
          · simp [h1, h2]
          · simp [h1, h2]
      · simp [hk, hk2]
  · funext a1
    simp only [after_nvmet, List.map_append, List.map_cons, List.map_nil, List.mem_append,
      List.mem_singleton]
    by_cases h1 : a1 ∈ init.map Profile.addr
    · simp [h1]
    · have hne : a1 ≠ x.addr := fun h => h1 (h ▸ List.mem_map_of_mem _ hx)
      by_cases h2 : a1 = last.addr
      · rw [if_neg h1, if_neg hne, if_pos h2, if_pos (Or.inr h2)]
      · rw [if_neg h1, if_neg hne, if_neg h2, if_neg h2, if_neg (not_or.2 ⟨h1, h2⟩)]
  · simp [after_nvmet, nvmet_trace_append_singleton, profile_trace]

theorem clean_nvmet_spec : ∀ (ps : List Profile) (m : Mem) (head : Addr) (fuel : Nat),
    IsProfileList m (some head) ps → ExclusivelyOwned ps →
    ps.length + (ps.flatMap Profile.hosts).length + (ps.flatMap Profile.ports).length ≤ fuel →
    ps ≠ [] → clean_nvmet fuel m (some head) = some (after_nvmet m ps) := by
  intro ps
  induction ps using List.reverseRecOn with
  | nil =>
    intro m head fuel _ _ _ hne
    exact absurd rfl hne
  | append_singleton init last ih =>
    intro m head fuel hl hown hf _
    unfold IsProfileList at hl
    rw [IsProfileSeg_append] at hl
    obtain ⟨r, hinit, hlast⟩ := hl
    rw [IsProfileSeg_singleton] at hlast
    obtain ⟨hr, ndl, hndl, hlh, hlp, hnextl⟩ := hlast
    subst hr
    obtain ⟨hown1, hnh, hnp, hdaddr, hdh, hdp⟩ :=
      ExclusivelyOwned_append_singleton init last hown
    simp only [List.length_append, List.length_singleton, List.flatMap_append,
      List.flatMap_cons, List.flatMap_nil, List.append_nil] at hf
    cases fuel with
    | zero => omega
    | succ f =>
      rcases List.eq_nil_or_concat init with hnil | ⟨pre, x, hpx⟩
      · subst hnil
        have hh : head = last.addr := by
          have : some head = some last.addr := hinit
          exact Option.some.inj this
        subst hh
        have hsub := clean_sublists_spec f m last.addr ndl last.hosts last.ports hndl hlh hlp
          hnh hnp (by omega) (by omega)
        rw [clean_nvmet]
        simp only [hndl, hnextl, hsub, Option.bind, free_profile, if_true]
        exact congrArg some (after_nvmet_single m last ⟨none, none, none⟩)
      · rw [List.concat_eq_append] at hpx
        subst hpx
        obtain ⟨ndh, c, hndh, hc⟩ :=
          IsProfileSeg_first_next m head last.addr (pre ++ [x]) (by simp) hinit
        have hlen : pre.length < f := by
          simp only [List.length_append, List.length_singleton] at hf
          omega
        have hpen := find_penultimate_nvmet_spec m x last.addr ndl hndl hnextl pre head f
          hinit hlen
        obtain ⟨r, hpre, hxs⟩ := (IsProfileSeg_append m pre [x] (some head) (some last.addr)).1 hinit
        rw [IsProfileSeg_singleton] at hxs
        obtain ⟨hr, ndx, hndx, hxh, hxp, hnextx⟩ := hxs
        subst hr
        have hxl : x.addr ≠ last.addr := hdaddr x (by simp)
        have hsub := clean_sublists_spec f m last.addr ndl last.hosts last.ports hndl hlh hlp
          hnh hnp (by omega) (by omega)
        have step : clean_nvmet (f + 1) m (some head) = clean_nvmet f
            { links := drop_links Kind.ports last.ports (drop_links Kind.hosts last.hosts m.links)
              nvmet := fun a1 => if a1 = x.addr then some { ndx with next := none }
                else if a1 = last.addr then none
                else if a1 = last.addr then some ⟨none, none, ndl.next⟩ else m.nvmet a1
              freed := m.freed ++ last.hosts.reverse.map (Block.link Kind.hosts)
                ++ last.ports.reverse.map (Block.link Kind.ports) ++ [Block.profile last.addr] }
            (some head) := by
          rw [clean_nvmet]
          simp only [hndh, hc, hpen, hndx, hnextx, hsub, Option.bind, free_profile, hxl,
            if_true, if_false]
        rw [step]
        have hown2 := ExclusivelyOwned_append_singleton pre x hown1
        rw [ih _ head f ?_ hown1 ?_ (by simp)]
        · rw [after_nvmet_step m (pre ++ [x]) x last _ _ (by simp)]
        · unfold IsProfileList
          rw [IsProfileSeg_append]
          refine ⟨some x.addr, ?_, ?_⟩
          · refine IsProfileSeg_congr m _ pre (some head) (some x.addr) ?_ ?_ ?_ hpre
            · intro s hs
              have h1 : s.addr ≠ x.addr := hown2.2.2.2.1 s hs
              have h2 : s.addr ≠ last.addr := hdaddr s (by simp [hs])
              simp [h1, h2]
            · intro s hs a ha
              have h1 : a ∉ last.hosts := hdh s (by simp [hs]) a ha
              simp [drop_links, h1]
            · intro s hs a ha
              have h1 : a ∉ last.ports := hdp s (by simp [hs]) a ha
              simp [drop_links, h1]
          · rw [IsProfileSeg_singleton]
            refine ⟨rfl, { ndx with next := none }, by simp, ?_, ?_, rfl⟩
            · refine IsSeg_congr Kind.hosts m _ x.hosts _ _ ?_ hxh
              intro a ha
              have h1 : a ∉ last.hosts := hdh x (by simp) a ha
              simp [drop_links, h1]
            · refine IsSeg_congr Kind.ports m _ x.ports _ _ ?_ hxp
              intro a ha
              have h1 : a ∉ last.ports := hdp x (by simp) a ha
              simp [drop_links, h1]
        · omega

theorem after_nvmet_nil (m : Mem) : after_nvmet m [] = m := by
  apply Mem.ext
  · funext k1 a1
    simp [after_nvmet, drop_links]
  · funext a1
    simp [after_nvmet]
  · simp [after_nvmet, nvmet_trace]

theorem IsProfileList_none (m : Mem) (ps : List Profile) (h : IsProfileList m none ps) :
    ps = [] := by
  cases ps with
  | nil => rfl
  | cons s l =>
    have h1 : IsProfileSeg m none (s :: l) none := h
    simp only [IsProfileSeg] at h1
    exact absurd h1.1 (by simp)

theorem IsProfileList_some (m : Mem) (a : Addr) (ps : List Profile)
    (h : IsProfileList m (some a) ps) : ps ≠ [] := by
  intro hnil
  subst hnil
  have h1 : some a = none := h
  exact absurd h1 (by simp)

theorem mem_nvmet_trace (ps : List Profile) (b : Block) :
    b ∈ nvmet_trace ps ↔ ∃ s ∈ ps, b = Block.profile s.addr
      ∨ (∃ a ∈ s.hosts, b = Block.link Kind.hosts a)
      ∨ (∃ a ∈ s.ports, b = Block.link Kind.ports a) := by
  simp only [nvmet_trace, profile_trace, List.mem_flatMap, List.mem_reverse, List.mem_append,
    List.mem_map, List.mem_singleton]
  constructor
  · rintro ⟨s, hs, (⟨a, ha, rfl⟩ | ⟨a, ha, rfl⟩) | rfl⟩
    · exact ⟨s, hs, Or.inr (Or.inl ⟨a, ha, rfl⟩)⟩
    · exact ⟨s, hs, Or.inr (Or.inr ⟨a, ha, rfl⟩)⟩
    · exact ⟨s, hs, Or.inl rfl⟩
  · rintro ⟨s, hs, rfl | ⟨a, ha, rfl⟩ | ⟨a, ha, rfl⟩⟩
    · exact ⟨s, hs, Or.inr rfl⟩
    · exact ⟨s, hs, Or.inl (Or.inl ⟨a, ha, rfl⟩)⟩
    · exact ⟨s, hs, Or.inl (Or.inr ⟨a, ha, rfl⟩)⟩

theorem profile_trace_nodup (s : Profile) (hh : s.hosts.Nodup) (hp : s.ports.Nodup) :
    (profile_trace s).Nodup := by
  unfold profile_trace
  rw [List.nodup_append, List.nodup_append]
  refine ⟨⟨?_, ?_, ?_⟩, List.nodup_singleton _, ?_⟩
  · exact (List.nodup_reverse.2 hh).map (fun a b h => by injection h)
  · exact (List.nodup_reverse.2 hp).map (fun a b h => by injection h)
  · intro b h1 h2
    simp only [List.mem_map, List.mem_reverse] at h1 h2
    obtain ⟨a, _, rfl⟩ := h1
    obtain ⟨a2, _, h⟩ := h2
    injection h with hk
    exact absurd hk (by decide)
  · intro b h1 h2
    simp only [List.mem_append, List.mem_map, List.mem_reverse, List.mem_singleton] at h1 h2
    subst h2
    rcases h1 with ⟨a, _, h⟩ | ⟨a, _, h⟩ <;> injection h

theorem nvmet_trace_nodup : ∀ (ps : List Profile), ExclusivelyOwned ps → (nvmet_trace ps).Nodup := by
  intro ps
  induction ps using List.reverseRecOn with
  | nil => intro _; simp [nvmet_trace]
  | append_singleton init last ih =>
    intro hown
    obtain ⟨hown1, hnh, hnp, hdaddr, hdh, hdp⟩ :=
      ExclusivelyOwned_append_singleton init last hown
    rw [nvmet_trace_append_singleton, List.nodup_append]
    refine ⟨profile_trace_nodup last hnh hnp, ih hown1, ?_⟩
    intro b h1 h2
    rw [mem_nvmet_trace] at h2
    obtain ⟨s, hs, h2⟩ := h2
    simp only [profile_trace, List.mem_append, List.mem_map, List.mem_reverse,
      List.mem_singleton] at h1
    rcases h1 with (⟨a, ha, rfl⟩ | ⟨a, ha, rfl⟩) | rfl
    · rcases h2 with h | ⟨a2, ha2, h⟩ | ⟨a2, ha2, h⟩
      · injection h
      · injection h with _ h
        subst h
        exact hdh s hs a ha2 ha
      · injection h with hk
        exact absurd hk (by decide)
    · rcases h2 with h | ⟨a2, ha2, h⟩ | ⟨a2, ha2, h⟩
      · injection h
      · injection h with hk
        exact absurd hk (by decide)
      · injection h with _ h
        subst h
        exact hdp s hs a ha2 ha
    · rcases h2 with h | ⟨a2, ha2, h⟩ | ⟨a2, ha2, h⟩
      · injection h with h
        exact hdaddr s hs h.symm
      · injection h
      · injection h

theorem nvmet_trace_length (ps : List Profile) :
    (nvmet_trace ps).length
      = ps.length + (ps.flatMap Profile.hosts).length + (ps.flatMap Profile.ports).length := by
  induction ps using List.reverseRecOn with
  | nil => simp [nvmet_trace]
  | append_singleton init last ih =>
    rw [nvmet_trace_append_singleton, List.length_append, ih]
    simp only [profile_trace, List.length_append, List.length_map, List.length_reverse,
      List.length_singleton, List.flatMap_append, List.flatMap_cons, List.flatMap_nil,
      List.append_nil]
    omega

theorem flatMap_length_uniform (f : Profile → List Addr) (n : Nat) :
    ∀ (ps : List Profile), (∀ s ∈ ps, (f s).length = n) → (ps.flatMap f).length = ps.length * n
  | [], _ => by simp
  | s :: l, h => by
    rw [List.flatMap_cons, List.length_append, h s (List.mem_cons_self s l),
      flatMap_length_uniform f n l (fun t ht => h t (List.mem_cons_of_mem s ht)),
      List.length_cons]
    ring

/-! ## `clean_nvmet` and `free_nvmet_linked_lists` (claim C10) -/

/-- C10, counterexample: for the list of `k = 0` profile nodes the head is `NULL`;
`clean_nvmet` reads `head->next` before any test of `head`, so it has no defined
outcome whatever the fuel, while `free_nvmet_linked_lists` skips the call and releases
nothing. -/
theorem clean_nvmet_null_head :
    IsProfileList emptyMem none [] ∧ ExclusivelyOwned []
    ∧ (∀ fuel : Nat, clean_nvmet fuel emptyMem none = none)
    ∧ (∀ fuel : Nat, (free_nvmet_linked_lists fuel emptyMem none none).map Mem.freed
        = some []) := by
  refine ⟨rfl, ⟨by simp, by simp, by simp⟩, ?_, ?_⟩
  · intro fuel
    cases fuel <;> rfl
  · intro fuel
    rfl

/-- C10, amended: for every `NULL`-terminated list of `k` profile nodes in which each node
exclusively owns `h` host nodes and `q` port nodes, `free_nvmet_linked_lists` called with
that list (and no ports list), and `clean_nvmet` when the list is not empty (`k ≥ 1`), end
with exactly `k + k * h + k * q` further calls of `free`, one for each of those nodes and
none twice. -/
theorem free_nvmet_release_count (m : Mem) (p : Ptr) (ps : List Profile) (k h q fuel : Nat)
    (hl : IsProfileList m p ps) (hown : ExclusivelyOwned ps)
    (hk : ps.length = k) (hhq : ∀ s ∈ ps, s.hosts.length = h ∧ s.ports.length = q)
    (hf : k + k * h + k * q ≤ fuel) :
    free_nvmet_linked_lists fuel m none p = some (after_nvmet m ps)
    ∧ (p ≠ none → clean_nvmet fuel m p = some (after_nvmet m ps))
    ∧ (after_nvmet m ps).freed = m.freed ++ nvmet_trace ps
    ∧ (nvmet_trace ps).length = k + k * h + k * q
    ∧ (nvmet_trace ps).Nodup
    ∧ ∀ b, b ∈ nvmet_trace ps ↔ ∃ s ∈ ps, b = Block.profile s.addr
        ∨ (∃ a ∈ s.hosts, b = Block.link Kind.hosts a)
        ∨ (∃ a ∈ s.ports, b = Block.link Kind.ports a) := by
  have hlenh : (ps.flatMap Profile.hosts).length = k * h := by
    rw [flatMap_length_uniform Profile.hosts h ps (fun s hs => (hhq s hs).1), hk]
  have hlenp : (ps.flatMap Profile.ports).length = k * q := by
    rw [flatMap_length_uniform Profile.ports q ps (fun s hs => (hhq s hs).2), hk]
  have hclean : p ≠ none → clean_nvmet fuel m p = some (after_nvmet m ps) := by
    intro hp
    cases p with
    | none => exact absurd rfl hp
    | some head =>
      exact clean_nvmet_spec ps m head fuel hl hown (by rw [hlenh, hlenp, hk]; exact hf)
        (IsProfileList_some m head ps hl)
  refine ⟨?_, hclean, rfl, ?_, nvmet_trace_nodup ps hown, mem_nvmet_trace ps⟩
  · unfold free_nvmet_linked_lists
    simp only [ne_eq, not_true_eq_false, if_false, Option.bind]
    by_cases hp : p = none
    · subst hp
      rw [IsProfileList_none m ps hl, after_nvmet_nil]
      simp
    · rw [if_pos hp]
      exact hclean hp
  · rw [nvmet_trace_length, hlenh, hlenp, hk]

/-- Witness for `free_nvmet_release_count`: two profiles with one host and two ports each
give `2 + 2 + 4 = 8` releases. -/
theorem free_nvmet_release_count_witness :
    free_nvmet_linked_lists 8 two_profiles_mem none (some 1)
      = some (after_nvmet two_profiles_mem two_profiles)
    ∧ ((some 1 : Ptr) ≠ none →
        clean_nvmet 8 two_profiles_mem (some 1) = some (after_nvmet two_profiles_mem two_profiles))
    ∧ (after_nvmet two_profiles_mem two_profiles).freed
        = two_profiles_mem.freed ++ nvmet_trace two_profiles
    ∧ (nvmet_trace two_profiles).length = 2 + 2 * 1 + 2 * 2
    ∧ (nvmet_trace two_profiles).Nodup
    ∧ ∀ b, b ∈ nvmet_trace two_profiles ↔ ∃ s ∈ two_profiles, b = Block.profile s.addr
        ∨ (∃ a ∈ s.hosts, b = Block.link Kind.hosts a)
        ∨ (∃ a ∈ s.ports, b = Block.link Kind.ports a) :=
  free_nvmet_release_count two_profiles_mem (some 1) two_profiles 2 1 2 8
    ⟨rfl, _, rfl, ⟨rfl, _, rfl, rfl⟩, ⟨rfl, _, rfl, rfl, _, rfl, rfl⟩,
      rfl, _, rfl, ⟨rfl, _, rfl, rfl⟩, ⟨rfl, _, rfl, rfl, _, rfl, rfl⟩, rfl⟩
    ⟨by decide, by decide, by decide⟩ rfl (by decide) (by decide)

/-- The run on `two_profiles_mem`: eight releases, hosts and ports of the last profile
first. -/
theorem clean_nvmet_two_profiles :
    (clean_nvmet 8 two_profiles_mem (some 1)).map Mem.freed
      = some [Block.link Kind.hosts 11, Block.link Kind.ports 23, Block.link Kind.ports 22,
          Block.profile 2, Block.link Kind.hosts 10, Block.link Kind.ports 21,
          Block.link Kind.ports 20, Block.profile 1] := by
  decide

/-! ## Order of the releases of `clean_nvmet` (claim C11) -/

theorem free_link_nvmet (k : Kind) (m m1 : Mem) (a : Addr) (h : free_link k m a = some m1) :
    m1.nvmet = m.nvmet := by
  unfold free_link at h
  split at h
  · exact absurd h (by simp)
  · cases h
    rfl

theorem set_next_nvmet (k : Kind) (m m1 : Mem) (a : Addr) (p : Ptr)
    (h : set_next k m a p = some m1) : m1.nvmet = m.nvmet := by
  unfold set_next at h
  split at h
  · exact absurd h (by simp)
  · cases h
    rfl

theorem clean_list_nvmet (k : Kind) : ∀ (fuel : Nat) (m m1 : Mem) (p : Ptr),
    clean_list k fuel m p = some m1 → m1.nvmet = m.nvmet := by
  intro fuel
  induction fuel with
  | zero =>
    intro m m1 p h
    simp [clean_list] at h
  | succ f ih =>
    intro m m1 p h
    cases p with
    | none => simp [clean_list] at h
    | some head =>
      rw [clean_list] at h
      split at h
      · exact absurd h (by simp)
      · exact free_link_nvmet k m m1 head h
      · split at h
        · exact absurd h (by simp)
        · split at h
          · exact absurd h (by simp)
          · exact ih m m1 (some head) h
          · split at h
            · exact absurd h (by simp)
            · rename_i m2 hfree
              split at h
              · exact absurd h (by simp)
              · rename_i m3 hset
                rw [ih m3 m1 (some head) h, set_next_nvmet k m2 m3 _ none hset,
                  free_link_nvmet k m m2 _ hfree]

theorem clean_allowed_hosts_nvmet (fuel : Nat) (m m1 : Mem) (a : Addr)
    (h : clean_allowed_hosts fuel m a = some m1) :
    ∃ nd0, m.nvmet a = some nd0
      ∧ m1.nvmet a = some { nd0 with allowed_hosts := none }
      ∧ ∀ b, b ≠ a → m1.nvmet b = m.nvmet b := by
  unfold clean_allowed_hosts at h
  cases hnd : m.nvmet a with
  | none =>
    rw [hnd] at h
    exact absurd h (by simp)
  | some nd0 =>
    rw [hnd] at h
    simp only [] at h
    refine ⟨nd0, rfl, ?_⟩
    by_cases hp : nd0.allowed_hosts = none
    · rw [if_neg (by simp [hp])] at h
      cases h
      refine ⟨?_, fun b _ => rfl⟩
      rw [hnd]
      cases nd0
      simp only [] at hp
      subst hp
      rfl
    · rw [if_pos hp] at h
      cases hc : clean_hosts fuel m nd0.allowed_hosts with
      | none =>
        rw [hc] at h
        exact absurd h (by simp)
      | some m2 =>
        rw [hc] at h
        have hnv : m2.nvmet = m.nvmet := clean_list_nvmet Kind.hosts fuel m m2 _ hc
        simp only [Option.bind, hnv, hnd] at h
        cases h
        refine ⟨by simp, fun b hb => ?_⟩
        simp [hb, hnv]

theorem clean_assigned_ports_nvmet (fuel : Nat) (m m1 : Mem) (a : Addr)
    (h : clean_assigned_ports fuel m a = some m1) :
    ∃ nd0, m.nvmet a = some nd0
      ∧ m1.nvmet a = some { nd0 with assigned_ports := none }
      ∧ ∀ b, b ≠ a → m1.nvmet b = m.nvmet b := by
  unfold clean_assigned_ports at h
  cases hnd : m.nvmet a with
  | none =>
    rw [hnd] at h
    exact absurd h (by simp)
  | some nd0 =>
    rw [hnd] at h
    simp only [] at h
    refine ⟨nd0, rfl, ?_⟩
    by_cases hp : nd0.assigned_ports = none
    · rw [if_neg (by simp [hp])] at h
      cases h
      refine ⟨?_, fun b _ => rfl⟩
      rw [hnd]
      cases nd0
      simp only [] at hp
      subst hp
      rfl
    · rw [if_pos hp] at h
      cases hc : clean_ports fuel m nd0.assigned_ports with
      | none =>
        rw [hc] at h
        exact absurd h (by simp)
      | some m2 =>
        rw [hc] at h
        have hnv : m2.nvmet = m.nvmet := clean_list_nvmet Kind.ports fuel m m2 _ hc
        simp only [Option.bind, hnv, hnd] at h
        cases h
        refine ⟨by simp, fun b hb => ?_⟩
        simp [hb, hnv]

theorem clean_sublists_nvmet (fuel : Nat) (m m1 : Mem) (a : Addr)
    (h : clean_sublists fuel m a = some m1) :
    ∃ nd0, m.nvmet a = some nd0
      ∧ m1.nvmet a = some ⟨none, none, nd0.next⟩
      ∧ ∀ b, b ≠ a → m1.nvmet b = m.nvmet b := by
  unfold clean_sublists at h
  cases hh : clean_allowed_hosts fuel m a with
  | none =>
    rw [hh] at h
    exact absurd h (by simp)
  | some m2 =>
    rw [hh] at h
    simp only [Option.bind] at h
    obtain ⟨nd0, h0, h1, h2⟩ := clean_allowed_hosts_nvmet fuel m m2 a hh
    obtain ⟨nd2, h3, h4, h5⟩ := clean_assigned_ports_nvmet fuel m2 m1 a h
    rw [h1] at h3
    cases h3
    exact ⟨nd0, h0, h4, fun b hb => (h5 b hb).trans (h2 b hb)⟩

theorem free_profile_checked_eq (m : Mem) (a : Addr) (nx : Ptr)
    (h : m.nvmet a = some ⟨none, none, nx⟩) :
    free_profile_checked m a = free_profile m a := by
  unfold free_profile_checked
  rw [h]
  simp

/-- In every run, on any memory, the assertion in front of the release of a profile
node holds: the asserting run and the plain run of `clean_nvmet` agree. -/
theorem clean_nvmet_checked_eq : ∀ (fuel : Nat) (m : Mem) (p : Ptr),
    clean_nvmet_checked fuel m p = clean_nvmet fuel m p := by
  intro fuel
  induction fuel with
  | zero =>
    intro m p
    simp [clean_nvmet_checked, clean_nvmet]
  | succ f ih =>
    intro m p
    cases p with
    | none => simp [clean_nvmet_checked, clean_nvmet]
    | some head =>
      rw [clean_nvmet_checked, clean_nvmet]
      cases hnd : m.nvmet head with
      | none => rfl
      | some nd =>
        simp only []
        cases hnext : nd.next with
        | none =>
          simp only []
          cases hs : clean_sublists f m head with
          | none => rfl
          | some m1 =>
            obtain ⟨nd0, _, h1, _⟩ := clean_sublists_nvmet f m m1 head hs
            simp only [Option.bind]
            exact free_profile_checked_eq m1 head _ h1
        | some c =>
          simp only []
          cases hpen : find_penultimate_nvmet f m head with
          | none => rfl
          | some current =>
            simp only []
            cases hc : m.nvmet current with
            | none => rfl
            | some ndc =>
              simp only []
              cases hcn : ndc.next with
              | none => rfl
              | some last =>
                simp only []
                cases hs : clean_sublists f m last with
                | none => rfl
                | some m1 =>
                  simp only [Option.bind]
                  obtain ⟨nd0, h0, h1, h2⟩ := clean_sublists_nvmet f m m1 last hs
                  cases hc1 : m1.nvmet current with
                  | none => rfl
                  | some ndc1 =>
                    simp only []
                    cases hcn1 : ndc1.next with
                    | none => exact ih m1 (some head)
                    | some last1 =>
                      simp only []
                      have hlast : last1 = last := by
                        by_cases hcl : current = last
                        · subst hcl
                          rw [hc] at h0
                          cases h0
                          rw [h1] at hc1
                          cases hc1
                          simp only [] at hcn1
                          rw [hcn] at hcn1
                          exact (Option.some.inj hcn1).symm
                        · rw [h2 current hcl, hc] at hc1
                          cases hc1
                          rw [hcn] at hcn1
                          exact (Option.some.inj hcn1).symm
                      subst hlast
                      rw [free_profile_checked_eq m1 last1 _ h1]
                      cases hfp : free_profile m1 last1 with
                      | none => rfl
                      | some m2 =>
                        simp only []
                        cases hc2 : m2.nvmet current with
                        | none => rfl
                        | some ndc2 => exact ih _ (some head)

theorem profile_trace_sublist (ps : List Profile) (s : Profile) (hs : s ∈ ps) :
    (profile_trace s).Sublist (nvmet_trace ps) := by
  unfold nvmet_trace
  rw [List.flatMap_def]
  exact List.sublist_flatten_of_mem (List.mem_map_of_mem _ (List.mem_reverse.2 hs))

theorem host_before_profile (s : Profile) (a : Addr) (ha : a ∈ s.hosts) :
    [Block.link Kind.hosts a, Block.profile s.addr].Sublist (profile_trace s) := by
  unfold profile_trace
  have h1 : [Block.link Kind.hosts a].Sublist (s.hosts.reverse.map (Block.link Kind.hosts)) :=
    List.singleton_sublist.2 (List.mem_map_of_mem _ (List.mem_reverse.2 ha))
  exact List.Sublist.append (h1.trans (List.sublist_append_left _ _)) (List.Sublist.refl _)

theorem port_before_profile (s : Profile) (a : Addr) (ha : a ∈ s.ports) :
    [Block.link Kind.ports a, Block.profile s.addr].Sublist (profile_trace s) := by
  unfold profile_trace
  have h1 : [Block.link Kind.ports a].Sublist (s.ports.reverse.map (Block.link Kind.ports)) :=
    List.singleton_sublist.2 (List.mem_map_of_mem _ (List.mem_reverse.2 ha))
  exact List.Sublist.append (h1.trans (List.sublist_append_right _ _)) (List.Sublist.refl _)

/-- C11: on a `NULL`-terminated list of exclusively owned profiles, the run of
`clean_nvmet` in which every release of a profile node first asserts that its
`allowed_hosts` and `assigned_ports` are `NULL` agrees with the plain run; for a
non-empty list both end in the state with all nodes released, no block is released
twice, and every host node and every port node of a profile is released before the
profile node itself. -/
theorem clean_nvmet_release_order (m : Mem) (p : Ptr) (ps : List Profile) (fuel : Nat)
    (hl : IsProfileList m p ps) (hown : ExclusivelyOwned ps)
    (hf : ps.length + (ps.flatMap Profile.hosts).length
      + (ps.flatMap Profile.ports).length ≤ fuel) :
    clean_nvmet_checked fuel m p = clean_nvmet fuel m p
    ∧ (p ≠ none → clean_nvmet_checked fuel m p = some (after_nvmet m ps))
    ∧ (after_nvmet m ps).freed = m.freed ++ nvmet_trace ps
    ∧ (nvmet_trace ps).Nodup
    ∧ ∀ s ∈ ps,
        (∀ a ∈ s.hosts,
          [Block.link Kind.hosts a, Block.profile s.addr].Sublist (nvmet_trace ps))
        ∧ (∀ a ∈ s.ports,
          [Block.link Kind.ports a, Block.profile s.addr].Sublist (nvmet_trace ps)) := by
  refine ⟨clean_nvmet_checked_eq fuel m p, ?_, rfl, nvmet_trace_nodup ps hown, ?_⟩
  · intro hp
    rw [clean_nvmet_checked_eq]
    cases p with
    | none => exact absurd rfl hp
    | some head =>
      exact clean_nvmet_spec ps m head fuel hl hown hf (IsProfileList_some m head ps hl)
  · intro s hs
    exact ⟨fun a ha => (host_before_profile s a ha).trans (profile_trace_sublist ps s hs),
      fun a ha => (port_before_profile s a ha).trans (profile_trace_sublist ps s hs)⟩

/-- Witness for `clean_nvmet_release_order`: the two profiles of `two_profiles_mem`. -/
theorem clean_nvmet_release_order_witness :
    clean_nvmet_checked 8 two_profiles_mem (some 1) = clean_nvmet 8 two_profiles_mem (some 1)
    ∧ ((some 1 : Ptr) ≠ none →
        clean_nvmet_checked 8 two_profiles_mem (some 1)
          = some (after_nvmet two_profiles_mem two_profiles))
    ∧ (after_nvmet two_profiles_mem two_profiles).freed
        = two_profiles_mem.freed ++ nvmet_trace two_profiles
    ∧ (nvmet_trace two_profiles).Nodup
    ∧ ∀ s ∈ two_profiles,
        (∀ a ∈ s.hosts,
          [Block.link Kind.hosts a, Block.profile s.addr].Sublist (nvmet_trace two_profiles))
        ∧ (∀ a ∈ s.ports,
          [Block.link Kind.ports a, Block.profile s.addr].Sublist (nvmet_trace two_profiles)) :=
  clean_nvmet_release_order two_profiles_mem (some 1) two_profiles 8
    ⟨rfl, _, rfl, ⟨rfl, _, rfl, rfl⟩, ⟨rfl, _, rfl, rfl, _, rfl, rfl⟩,
      rfl, _, rfl, ⟨rfl, _, rfl, rfl⟩, ⟨rfl, _, rfl, rfl, _, rfl, rfl⟩, rfl⟩
    ⟨by decide, by decide, by decide⟩ (by decide)

/-! ## Acyclic lists have no repeated node -/

theorem IsSeg_unique (k : Kind) (m : Mem) : ∀ (l1 l2 : List Addr) (p : Ptr),
    IsSeg k m p l1 none → IsSeg k m p l2 none → l1 = l2
  | [], [], _, _, _ => rfl
  | [], b :: t2, p, h1, h2 => by
    have e1 : p = none := h1
    simp only [IsSeg] at h2
    rw [e1] at h2
    exact absurd h2.1 (by simp)
  | a :: t, [], p, h1, h2 => by
    have e2 : p = none := h2
    simp only [IsSeg] at h1
    rw [e2] at h1
    exact absurd h1.1 (by simp)
  | a :: t, b :: t2, p, h1, h2 => by
    simp only [IsSeg] at h1 h2
    obtain ⟨hp1, nx1, hn1, hs1⟩ := h1
    obtain ⟨hp2, nx2, hn2, hs2⟩ := h2
    have hab : a = b := Option.some.inj (hp1.symm.trans hp2)
    subst hab
    have hnx : nx1 = nx2 := Option.some.inj (hn1.symm.trans hn2)
    subst hnx
    rw [IsSeg_unique k m t t2 nx1 hs1 hs2]

theorem IsList_nodup (k : Kind) (m : Mem) : ∀ (l : List Addr) (p : Ptr),
    IsList k m p l → l.Nodup
  | [], _, _ => List.nodup_nil
  | a :: t, p, h => by
    have h1 : IsSeg k m p (a :: t) none := h
    simp only [IsSeg] at h1
    obtain ⟨hp, nx, hnx, hs⟩ := h1
    subst hp
    rw [List.nodup_cons]
    refine ⟨?_, IsList_nodup k m t nx hs⟩
    intro hmem
    obtain ⟨t1, t2, ht⟩ := List.append_of_mem hmem
    rw [ht, IsSeg_append] at hs
    obtain ⟨r, _, hr⟩ := hs
    have hra : r = some a := by
      simp only [IsSeg] at hr
      exact hr.1
    rw [hra] at hr
    have heq : a :: t2 = a :: t := IsSeg_unique k m (a :: t2) (a :: t) (some a) hr h
    have hlen : (a :: t2).length = (a :: t).length := by rw [heq]
    rw [ht] at hlen
    simp only [List.length_cons, List.length_append] at hlen
    omega

theorem after_links_nil (k : Kind) (m : Mem) : after_links k [] m = m := by
  apply Mem.ext
  · exact drop_links_nil k m.links
  · rfl
  · simp [after_links]

/-- A guarded call `if (head != NULL) clean(head);` on a `NULL`-terminated list. -/
theorem guarded_clean_list_spec (k : Kind) (fuel : Nat) (m : Mem) (p : Ptr) (l : List Addr)
    (hl : IsList k m p l) (hf : l.length ≤ fuel) :
    (if p ≠ none then clean_list k fuel m p else some m) = some (after_links k l m) := by
  cases p with
  | none =>
    have hnil : l = [] := by
      cases l with
      | nil => rfl
      | cons a t =>
        have h1 : IsSeg k m none (a :: t) none := hl
        simp only [IsSeg] at h1
        exact absurd h1.1 (by simp)
    subst hnil
    rw [after_links_nil]
    simp
  | some head =>
    have hne : l ≠ [] := by
      intro hnil
      subst hnil
      have h1 : some head = none := hl
      exact absurd h1 (by simp)
    rw [if_pos (by simp)]
    exact clean_list_spec k l m head fuel hl (IsList_nodup k m l _ hl) hf hne

/-! ## `free_linked_lists` and `free_nvmet_linked_lists` (claim C12) -/

theorem IsList_after_links_other (k k2 : Kind) (hk : k2 ≠ k) (m : Mem) (l0 l : List Addr)
    (p : Ptr) (h : IsList k2 m p l) : IsList k2 (after_links k l0 m) p l := by
  refine IsSeg_congr k2 m _ l p none ?_ h
  intro a _
  simp [after_links, drop_links, hk]

theorem guarded_clean_nvmet_spec (fuel : Nat) (m : Mem) (p : Ptr) (ps : List Profile)
    (hl : IsProfileList m p ps) (hown : ExclusivelyOwned ps)
    (hf : ps.length + (ps.flatMap Profile.hosts).length
      + (ps.flatMap Profile.ports).length ≤ fuel) :
    (if p ≠ none then clean_nvmet fuel m p else some m) = some (after_nvmet m ps) := by
  cases p with
  | none =>
    rw [IsProfileList_none m ps hl, after_nvmet_nil]
    simp
  | some head =>
    rw [if_pos (by simp)]
    exact clean_nvmet_spec ps m head fuel hl hown hf (IsProfileList_some m head ps hl)

theorem IsProfileList_after_ports (m : Mem) (lp : List Addr) (p : Ptr) (ps : List Profile)
    (hdisj : ∀ a ∈ lp, a ∉ ps.flatMap Profile.ports) (h : IsProfileList m p ps) :
    IsProfileList (after_links Kind.ports lp m) p ps := by
  refine IsProfileSeg_congr m _ ps p none (fun _ _ => rfl) ?_ ?_ h
  · intro s _ a _
    simp [after_links, drop_links]
  · intro s hs a ha
    have hmem : a ∈ ps.flatMap Profile.ports := List.mem_flatMap.2 ⟨s, hs, ha⟩
    have hnot : a ∉ lp := fun hin => hdisj a hin hmem
    simp [after_links, drop_links, hnot]

/-- C12: for `NULL`-terminated lists (an absent argument is the empty list),
`free_linked_lists` ends in the state where exactly the nodes of the three lists are
released and `free_nvmet_linked_lists` in the state where exactly the ports list and the
profile list with its sub-lists are released; the step of an absent argument changes
nothing, and with all arguments absent both functions return the memory as it was. -/
theorem free_lists_absent_arguments (fuel : Nat) (m : Mem)
    (rc_head rd_head vp_head ports_head nvmet_head : Ptr)
    (lrc lrd lvp lp : List Addr) (ps : List Profile)
    (hrc : IsList Kind.rc m rc_head lrc) (hrd : IsList Kind.rd m rd_head lrd)
    (hvp : IsList Kind.vp m vp_head lvp) (hp : IsList Kind.ports m ports_head lp)
    (hn : IsProfileList m nvmet_head ps) (hown : ExclusivelyOwned ps)
    (hdisj : ∀ a ∈ lp, a ∉ ps.flatMap Profile.ports)
    (hf : lrc.length ≤ fuel ∧ lrd.length ≤ fuel ∧ lvp.length ≤ fuel ∧ lp.length ≤ fuel
      ∧ ps.length + (ps.flatMap Profile.hosts).length
        + (ps.flatMap Profile.ports).length ≤ fuel) :
    free_linked_lists fuel m rc_head rd_head vp_head
      = some (after_links Kind.vp lvp (after_links Kind.rd lrd (after_links Kind.rc lrc m)))
    ∧ free_nvmet_linked_lists fuel m ports_head nvmet_head
      = some (after_nvmet (after_links Kind.ports lp m) ps)
    ∧ (rc_head = none → ∀ m1, after_links Kind.rc lrc m1 = m1)
    ∧ (rd_head = none → ∀ m1, after_links Kind.rd lrd m1 = m1)
    ∧ (vp_head = none → ∀ m1, after_links Kind.vp lvp m1 = m1)
    ∧ (ports_head = none → ∀ m1, after_links Kind.ports lp m1 = m1)
    ∧ (nvmet_head = none → ∀ m1, after_nvmet m1 ps = m1)
    ∧ free_linked_lists fuel m none none none = some m
    ∧ free_nvmet_linked_lists fuel m none none = some m := by
  obtain ⟨hf1, hf2, hf3, hf4, hf5⟩ := hf
  have hnil : ∀ (k : Kind) (p : Ptr) (l : List Addr), IsList k m p l → p = none → l = [] := by
    intro k p l hl hp
    subst hp
    cases l with
    | nil => rfl
    | cons a t =>
      have h1 : IsSeg k m none (a :: t) none := hl
      simp only [IsSeg] at h1
      exact absurd h1.1 (by simp)
  refine ⟨?_, ?_, ?_, ?_, ?_, ?_, ?_, ?_, ?_⟩
  · unfold free_linked_lists clean_rc clean_rd clean_vp
    rw [guarded_clean_list_spec Kind.rc fuel m rc_head lrc hrc hf1]
    simp only [Option.bind]
    rw [guarded_clean_list_spec Kind.rd fuel _ rd_head lrd
      (IsList_after_links_other Kind.rc Kind.rd (by decide) m lrc lrd rd_head hrd) hf2]
    simp only [Option.bind]
    exact guarded_clean_list_spec Kind.vp fuel _ vp_head lvp
      (IsList_after_links_other Kind.rd Kind.vp (by decide) _ lrd lvp vp_head
        (IsList_after_links_other Kind.rc Kind.vp (by decide) m lrc lvp vp_head hvp)) hf3
  · unfold free_nvmet_linked_lists clean_ports
    rw [guarded_clean_list_spec Kind.ports fuel m ports_head lp hp hf4]
    simp only [Option.bind]
    exact guarded_clean_nvmet_spec fuel _ nvmet_head ps
      (IsProfileList_after_ports m lp nvmet_head ps hdisj hn) hown hf5
  · intro h m1
    rw [hnil Kind.rc rc_head lrc hrc h, after_links_nil]
  · intro h m1
    rw [hnil Kind.rd rd_head lrd hrd h, after_links_nil]
  · intro h m1
    rw [hnil Kind.vp vp_head lvp hvp h, after_links_nil]
  · intro h m1
    rw [hnil Kind.ports ports_head lp hp h, after_links_nil]
  · intro h m1
    subst h
    rw [IsProfileList_none m ps hn, after_nvmet_nil]
  · simp [free_linked_lists]
  · simp [free_nvmet_linked_lists]

/-- Witness for `free_lists_absent_arguments`: in `mixed_mem` the `RD_PROFILE` list and
the ports list are absent, the other three lists are present. -/
theorem free_lists_absent_arguments_witness :
    free_linked_lists 8 mixed_mem (some 1) none (some 5)
      = some (after_links Kind.vp [5] (after_links Kind.rd [] (after_links Kind.rc [1, 2]
          mixed_mem)))
    ∧ free_nvmet_linked_lists 8 mixed_mem none (some 1)
      = some (after_nvmet (after_links Kind.ports [] mixed_mem) two_profiles)
    ∧ ((some 1 : Ptr) = none → ∀ m1, after_links Kind.rc [1, 2] m1 = m1)
    ∧ ((none : Ptr) = none → ∀ m1, after_links Kind.rd [] m1 = m1)
    ∧ ((some 5 : Ptr) = none → ∀ m1, after_links Kind.vp [5] m1 = m1)
    ∧ ((none : Ptr) = none → ∀ m1, after_links Kind.ports [] m1 = m1)
    ∧ ((some 1 : Ptr) = none → ∀ m1, after_nvmet m1 two_profiles = m1)
    ∧ free_linked_lists 8 mixed_mem none none none = some mixed_mem
    ∧ free_nvmet_linked_lists 8 mixed_mem none none = some mixed_mem :=
  free_lists_absent_arguments 8 mixed_mem (some 1) none (some 5) none (some 1)
    [1, 2] [] [5] [] two_profiles
    ⟨rfl, _, rfl, rfl, _, rfl, rfl⟩ rfl ⟨rfl, _, rfl, rfl⟩ rfl
    ⟨rfl, _, rfl, ⟨rfl, _, rfl, rfl⟩, ⟨rfl, _, rfl, rfl, _, rfl, rfl⟩,
      rfl, _, rfl, ⟨rfl, _, rfl, rfl⟩, ⟨rfl, _, rfl, rfl, _, rfl, rfl⟩, rfl⟩
    ⟨by decide, by decide, by decide⟩ (by decide)
    ⟨by decide, by decide, by decide, by decide, by decide⟩

/-- The releases of the two calls on `mixed_mem`. -/
theorem free_lists_mixed_mem :
    (free_linked_lists 8 mixed_mem (some 1) none (some 5)).map Mem.freed
      = some [Block.link Kind.rc 2, Block.link Kind.rc 1, Block.link Kind.vp 5]
    ∧ (free_nvmet_linked_lists 8 mixed_mem none (some 1)).map Mem.freed
      = some [Block.link Kind.hosts 11, Block.link Kind.ports 23, Block.link Kind.ports 22,
          Block.profile 2, Block.link Kind.hosts 10, Block.link Kind.ports 21,
          Block.link Kind.ports 20, Block.profile 1] := by
  refine ⟨by decide, by decide⟩

/-! ## Order of the releases of the simple lists (claim C18) -/

/-- C18: for every non-empty `NULL`-terminated list `l` of a kind `k`, the cleanup
function of that kind (`clean_rc`, `clean_rd`, `clean_vp`, `clean_ports` or
`clean_hosts`) runs to its end without reading a released or absent node, releases the
nodes of `l` in reverse order (last node first, head last), each exactly once, and leaves
every other node as it was. -/
theorem clean_of_reverse_order (k : Kind) (fuel : Nat) (m : Mem) (head : Addr)
    (l : List Addr) (hl : IsList k m (some head) l) (hf : l.length ≤ fuel) :
    clean_of k fuel m (some head) = some (after_links k l m)
    ∧ (after_links k l m).freed = m.freed ++ l.reverse.map (Block.link k)
    ∧ (l.reverse.map (Block.link k)).Nodup
    ∧ l.reverse.getLast? = some head
    ∧ (∀ a ∈ l, (after_links k l m).links k a = none)
    ∧ (∀ k1 a, ¬ (k1 = k ∧ a ∈ l) → (after_links k l m).links k1 a = m.links k1 a) := by
  have hne : l ≠ [] := by
    intro hnil
    subst hnil
    have h1 : some head = none := hl
    exact absurd h1 (by simp)
  have hnd : l.Nodup := IsList_nodup k m l _ hl
  have hrun : clean_list k fuel m (some head) = some (after_links k l m) :=
    clean_list_spec k l m head fuel hl hnd hf hne
  refine ⟨?_, rfl, ?_, ?_, ?_, ?_⟩
  · cases k <;> exact hrun
  · exact (List.nodup_reverse.2 hnd).map (fun a b h => by injection h)
  · cases l with
    | nil => exact absurd rfl hne
    | cons a t =>
      have h1 : IsSeg k m (some head) (a :: t) none := hl
      simp only [IsSeg] at h1
      have ha : head = a := Option.some.inj h1.1
      subst ha
      simp
  · intro a ha
    simp [after_links, drop_links, ha]
  · intro k1 a hna
    simp only [after_links, drop_links]
    rw [if_neg hna]

/-- Witness for `clean_of_reverse_order`: the `RC_PROFILE` list `1, 2` of `mixed_mem`. -/
theorem clean_of_reverse_order_witness :
    clean_of Kind.rc 2 mixed_mem (some 1) = some (after_links Kind.rc [1, 2] mixed_mem)
    ∧ (after_links Kind.rc [1, 2] mixed_mem).freed
        = mixed_mem.freed ++ [1, 2].reverse.map (Block.link Kind.rc)
    ∧ ([1, 2].reverse.map (Block.link Kind.rc)).Nodup
    ∧ [1, 2].reverse.getLast? = some 1
    ∧ (∀ a ∈ [1, 2], (after_links Kind.rc [1, 2] mixed_mem).links Kind.rc a = none)
    ∧ (∀ k1 a, ¬ (k1 = Kind.rc ∧ a ∈ [1, 2]) →
        (after_links Kind.rc [1, 2] mixed_mem).links k1 a = mixed_mem.links k1 a) :=
  clean_of_reverse_order Kind.rc 2 mixed_mem 1 [1, 2] ⟨rfl, _, rfl, rfl, _, rfl, rfl⟩
    (by decide)

/-- A read through a released node ends the run: after `free(2)` the loop of
`find_penultimate` started at node `1`, whose `next` still points to `2`, has no
outcome. -/
theorem find_penultimate_after_free :
    (free_link Kind.rc mixed_mem 2).bind (fun m1 => find_penultimate Kind.rc 5 m1 1) = none := by
  decide

/-! ## Directory scans (claims C13 to C15) -/

theorem take_set_same (l : List Ptr) (n : Nat) (v : Ptr) : (l.set n v).take n = l.take n :=
  List.ext_getElem? fun i => by
    rw [List.getElem?_take, List.getElem?_take]
    split
    · next h => rw [List.getElem?_set_ne (by omega)]
    · rfl

theorem clean_scandir_loop_spec : ∀ (n : Nat) (l : List Ptr) (freed : List ScanBlock),
    n ≤ l.length →
    (∀ a, some a ∈ l.take n → ScanBlock.entry a ∉ freed) →
    ((l.take n).filterMap id).Nodup →
    clean_scandir_loop l n freed
      = some (freed ++ ((l.take n).reverse.filterMap id).map ScanBlock.entry) := by
  intro n
  induction n with
  | zero =>
    intro l freed _ _ _
    simp [clean_scandir_loop]
  | succ n ih =>
    intro l freed hn hfresh hnd
    have hlt : n < l.length := hn
    have hget : l[n]? = some l[n] := List.getElem?_eq_getElem hlt
    have htake : l.take (n + 1) = l.take n ++ [l[n]] := by
      rw [List.take_succ, hget]
      rfl
    rw [clean_scandir_loop, hget]
    rw [htake] at hfresh hnd
    cases hx : l[n] with
    | none =>
      simp only []
      rw [ih l freed (Nat.le_of_lt hlt)
        (fun a ha => hfresh a (List.mem_append_left _ ha))
        (by simpa [hx, List.filterMap_append] using hnd)]
      rw [htake, hx]
      simp [List.filterMap_append]
    | some a =>
      simp only []
      rw [hx] at hfresh hnd
      have hfa : ScanBlock.entry a ∉ freed := hfresh a (by simp)
      rw [if_neg hfa]
      simp only [List.filterMap_append, List.filterMap_cons, id, List.filterMap_nil] at hnd
      rw [List.nodup_append] at hnd
      have hna : a ∉ (l.take n).filterMap id := fun hmem =>
        hnd.2.2 hmem (List.mem_singleton_self a)
      rw [ih (l.set n none) (freed ++ [ScanBlock.entry a]) (by simpa using Nat.le_of_lt hlt)
        ?_ ?_]
      · rw [take_set_same, htake, hx]
        simp [List.filterMap_append]
      · intro b hb
        rw [take_set_same] at hb
        intro hmem
        rw [List.mem_append, List.mem_singleton] at hmem
        rcases hmem with h | h
        · exact hfresh b (List.mem_append_left _ hb) h
        · injection h with h
          subst h
          exact hna (List.mem_filterMap.2 ⟨some b, hb, rfl⟩)
      · rw [take_set_same]
        exact hnd.1

theorem clean_scandir_full (l : List Ptr) (hnd : (l.filterMap id).Nodup) :
    clean_scandir (some l) l.length
      = some ⟨none, (l.reverse.filterMap id).map ScanBlock.entry ++ [ScanBlock.list]⟩ := by
  unfold clean_scandir
  simp only []
  rw [if_neg (by omega)]
  have h := clean_scandir_loop_spec l.length l [] (Nat.le_refl _) (fun _ _ => by simp)
    (by rw [List.take_length]; exact hnd)
  rw [List.take_length] at h
  simp only [Int.toNat_ofNat, h, Option.map, List.nil_append]

/-- C15: for a scan result whose `num` entries are distinct blocks (absent entries
allowed), `clean_scandir` releases every non-absent entry exactly once, the last index
first, then the array itself, and returns `NULL`; for a `NULL` array it releases nothing
and returns `NULL`; whenever it returns, it returns `NULL`. -/
theorem clean_scandir_releases (l : List Ptr) (hnd : (l.filterMap id).Nodup) :
    clean_scandir (some l) l.length
      = some ⟨none, (l.reverse.filterMap id).map ScanBlock.entry ++ [ScanBlock.list]⟩
    ∧ ((l.reverse.filterMap id).map ScanBlock.entry ++ [ScanBlock.list]).Nodup
    ∧ (∀ a, ScanBlock.entry a ∈ (l.reverse.filterMap id).map ScanBlock.entry ↔ some a ∈ l)
    ∧ (∀ num : Int, clean_scandir none num = some ⟨none, []⟩)
    ∧ (∀ (sl : Option (List Ptr)) (num : Int) (r : ScanResult),
        clean_scandir sl num = some r → r.ret = none) := by
  refine ⟨clean_scandir_full l hnd, ?_, ?_, fun _ => rfl, ?_⟩
  · rw [List.nodup_append]
    refine ⟨?_, List.nodup_singleton _, ?_⟩
    · refine List.Nodup.map (fun a b h => by injection h) ?_
      rw [List.filterMap_reverse]
      exact List.nodup_reverse.2 hnd
    · intro b h1 h2
      rw [List.mem_singleton] at h2
      subst h2
      simp at h1
  · intro a
    simp only [List.mem_map, List.mem_filterMap, List.mem_reverse, id]
    constructor
    · rintro ⟨b, ⟨x, hx, rfl⟩, hb⟩
      injection hb with hb
      subst hb
      exact hx
    · intro h
      exact ⟨a, ⟨some a, h, rfl⟩, rfl⟩
  · intro sl num r h
    unfold clean_scandir at h
    cases sl with
    | none =>
      simp only [] at h
      cases h
      rfl
    | some l1 =>
      simp only [] at h
      split at h
      · exact absurd h (by simp)
      · cases hloop : clean_scandir_loop l1 num.toNat [] with
        | none =>
          rw [hloop] at h
          exact absurd h (by simp)
        | some fr =>
          rw [hloop] at h
          simp only [Option.map] at h
          cases h
          rfl

/-- Witness for `clean_scandir_releases`: three slots, the middle one absent. -/
theorem clean_scandir_releases_witness :
    clean_scandir (some [some 1, none, some 3]) ([some 1, none, some 3] : List Ptr).length
      = some ⟨none, (([some 1, none, some 3] : List Ptr).reverse.filterMap id).map
          ScanBlock.entry ++ [ScanBlock.list]⟩
    ∧ ((([some 1, none, some 3] : List Ptr).reverse.filterMap id).map ScanBlock.entry
        ++ [ScanBlock.list]).Nodup
    ∧ (∀ a, ScanBlock.entry a
        ∈ (([some 1, none, some 3] : List Ptr).reverse.filterMap id).map ScanBlock.entry
        ↔ some a ∈ ([some 1, none, some 3] : List Ptr))
    ∧ (∀ num : Int, clean_scandir none num = some ⟨none, []⟩)
    ∧ (∀ (sl : Option (List Ptr)) (num : Int) (r : ScanResult),
        clean_scandir sl num = some r → r.ret = none) :=
  clean_scandir_releases [some 1, none, some 3] (by decide)

/-- The run on three slots: entry `3`, entry `1`, then the array. -/
theorem clean_scandir_three_slots :
    clean_scandir (some [some 1, none, some 3]) 3
      = some ⟨none, [ScanBlock.entry 3, ScanBlock.entry 1, ScanBlock.list]⟩ := by
  decide

theorem find_rapiddisk_cache_eq : ∀ (list : List Dirent) (rc : Int),
    find_rapiddisk_cache list rc
      = if "rapiddisk_cache" ∈ list.map Dirent.d_name then SUCCESS else rc
  | [], rc => by simp [find_rapiddisk_cache]
  | e :: es, rc => by
    rw [find_rapiddisk_cache, find_rapiddisk_cache_eq es rc]
    by_cases h : e.d_name = "rapiddisk_cache"
    · simp [h]
    · have h2 : ¬ "rapiddisk_cache" = e.d_name := fun h3 => h h3.symm
      simp [h, h2]

theorem find_dm_writecache_eq : ∀ (list : List Dirent) (rc : Int),
    find_dm_writecache list rc
      = if "dm_writecache" ∈ list.map Dirent.d_name then 1 else rc
  | [], rc => by simp [find_dm_writecache]
  | e :: es, rc => by
    rw [find_dm_writecache, find_dm_writecache_eq es _]
    by_cases h : e.d_name = "dm_writecache"
    · simp [h]
    · have h2 : ¬ "dm_writecache" = e.d_name := fun h3 => h h3.symm
      simp [h, h2]

theorem clean_scandir_dirents (list : List Dirent) (hnd : (list.map Dirent.addr).Nodup) :
    ∃ r, clean_scandir (some (list.map fun e => some e.addr)) list.length = some r := by
  have hfm : (list.map fun e => (some e.addr : Ptr)).filterMap id = list.map Dirent.addr := by
    induction list with
    | nil => rfl
    | cons e es ih =>
      have hes : (es.map Dirent.addr).Nodup := (List.nodup_cons.1 hnd).2
      simp only [List.map_cons, List.filterMap_cons, id, ih hes]
  have h := clean_scandir_full (list.map fun e => (some e.addr : Ptr)) (by rw [hfm]; exact hnd)
  rw [List.length_map] at h
  exact ⟨_, h⟩

/-- C13: when `access` succeeds and the scan of the module directory yields the entries
`list` (distinct blocks), `check_loaded_modules` returns `1` if the names contain both
`rapiddisk_cache` and `dm_writecache`, `0` if they contain `rapiddisk_cache` but not
`dm_writecache`, and the negative `INVALID_VALUE` if they do not contain
`rapiddisk_cache`; when `access` fails with `-1` it returns the negative `-EPERM`. -/
theorem check_loaded_modules_spec (access_rc : Int) (list : List Dirent)
    (hacc : access_rc ≠ INVALID_VALUE) (hnd : (list.map Dirent.addr).Nodup) :
    ("rapiddisk_cache" ∈ list.map Dirent.d_name → "dm_writecache" ∈ list.map Dirent.d_name →
      check_loaded_modules access_rc (some list) = some 1)
    ∧ ("rapiddisk_cache" ∈ list.map Dirent.d_name → "dm_writecache" ∉ list.map Dirent.d_name →
      check_loaded_modules access_rc (some list) = some 0)
    ∧ ("rapiddisk_cache" ∉ list.map Dirent.d_name →
      check_loaded_modules access_rc (some list) = some INVALID_VALUE ∧ INVALID_VALUE < 0)
    ∧ (∀ scan, check_loaded_modules INVALID_VALUE scan = some (-EPERM))
    ∧ -EPERM < 0 := by
  obtain ⟨r, hr⟩ := clean_scandir_dirents list hnd
  refine ⟨?_, ?_, ?_, ?_, by decide⟩
  · intro h1 h2
    unfold check_loaded_modules
    rw [if_neg hacc]
    simp only [find_rapiddisk_cache_eq, find_dm_writecache_eq, h1, h2, if_true, hr,
      Option.map, ne_eq, not_true_eq_false, if_false]
  · intro h1 h2
    unfold check_loaded_modules
    rw [if_neg hacc]
    simp only [find_rapiddisk_cache_eq, find_dm_writecache_eq, h1, h2, if_true, hr,
      Option.map, ne_eq, not_true_eq_false, if_false]
    rfl
  · intro h1
    unfold check_loaded_modules
    rw [if_neg hacc]
    simp only [find_rapiddisk_cache_eq, h1, if_false, hr, Option.map]
    refine ⟨?_, by decide⟩
    rw [if_pos (by decide)]
  · intro scan
    unfold check_loaded_modules
    rw [if_pos rfl]

/-- Witness for `check_loaded_modules_spec`: a scan with `rapiddisk`, `rapiddisk_cache` and
`dm_writecache`. -/
theorem check_loaded_modules_spec_witness :
    ("rapiddisk_cache" ∈ ([⟨1, "rapiddisk"⟩, ⟨2, "rapiddisk_cache"⟩, ⟨3, "dm_writecache"⟩]
        : List Dirent).map Dirent.d_name →
      "dm_writecache" ∈ ([⟨1, "rapiddisk"⟩, ⟨2, "rapiddisk_cache"⟩, ⟨3, "dm_writecache"⟩]
        : List Dirent).map Dirent.d_name →
      check_loaded_modules 0
        (some [⟨1, "rapiddisk"⟩, ⟨2, "rapiddisk_cache"⟩, ⟨3, "dm_writecache"⟩]) = some 1)
    ∧ ("rapiddisk_cache" ∈ ([⟨1, "rapiddisk"⟩, ⟨2, "rapiddisk_cache"⟩, ⟨3, "dm_writecache"⟩]
        : List Dirent).map Dirent.d_name →
      "dm_writecache" ∉ ([⟨1, "rapiddisk"⟩, ⟨2, "rapiddisk_cache"⟩, ⟨3, "dm_writecache"⟩]
        : List Dirent).map Dirent.d_name →
      check_loaded_modules 0
        (some [⟨1, "rapiddisk"⟩, ⟨2, "rapiddisk_cache"⟩, ⟨3, "dm_writecache"⟩]) = some 0)
    ∧ ("rapiddisk_cache" ∉ ([⟨1, "rapiddisk"⟩, ⟨2, "rapiddisk_cache"⟩, ⟨3, "dm_writecache"⟩]
        : List Dirent).map Dirent.d_name →
      check_loaded_modules 0
        (some [⟨1, "rapiddisk"⟩, ⟨2, "rapiddisk_cache"⟩, ⟨3, "dm_writecache"⟩])
        = some INVALID_VALUE ∧ INVALID_VALUE < 0)
    ∧ (∀ scan, check_loaded_modules INVALID_VALUE scan = some (-EPERM))
    ∧ -EPERM < 0 :=
  check_loaded_modules_spec 0 [⟨1, "rapiddisk"⟩, ⟨2, "rapiddisk_cache"⟩, ⟨3, "dm_writecache"⟩]
    (by decide) (by decide)

/-- The four outcomes of `check_loaded_modules` on concrete scans. -/
theorem check_loaded_modules_outcomes :
    check_loaded_modules 0
      (some [⟨1, "rapiddisk"⟩, ⟨2, "rapiddisk_cache"⟩, ⟨3, "dm_writecache"⟩]) = some 1
    ∧ check_loaded_modules 0 (some [⟨1, "rapiddisk"⟩, ⟨2, "rapiddisk_cache"⟩]) = some 0
    ∧ check_loaded_modules 0 (some [⟨1, "rapiddisk"⟩, ⟨3, "dm_writecache"⟩]) = some (-1)
    ∧ check_loaded_modules (-1) none = some (-1)
    ∧ check_loaded_modules 0 none = some (-2) := by
  refine ⟨by decide, by decide, by decide, by decide, by decide⟩

/-- C14: `scandir_filter_no_dot` returns `FALSE` exactly when the name of the entry
begins with the character `.`, and `TRUE` otherwise, also for the empty name. -/
theorem scandir_filter_no_dot_spec (list : Dirent) :
    (scandir_filter_no_dot list = FALSE ↔ list.d_name.data.head? = some '.')
    ∧ (scandir_filter_no_dot list = TRUE ↔ list.d_name.data.head? ≠ some '.')
    ∧ (list.d_name = "" → scandir_filter_no_dot list = TRUE) := by
  obtain ⟨addr, name⟩ := list
  obtain ⟨cs⟩ := name
  unfold scandir_filter_no_dot strncmp_eq
  cases cs with
  | nil =>
    refine ⟨?_, ?_, fun _ => ?_⟩ <;> simp [FALSE, TRUE]
  | cons c t =>
    by_cases hc : c = '.'
    · subst hc
      refine ⟨?_, ?_, fun h => ?_⟩
      · simp [FALSE, TRUE]
      · simp [FALSE, TRUE]
      · exact absurd h (by simp [String.ext_iff])
    · refine ⟨?_, ?_, fun h => ?_⟩
      · simp [FALSE, TRUE, hc]
      · simp [FALSE, TRUE, hc]
      · exact absurd h (by simp [String.ext_iff])

/-! ## `split` (claim C17) -/

theorem splitOnP_takeWhile (p : Char → Bool) : ∀ (s : List Char),
    s.splitOnP p = s.takeWhile (fun x => !p x) ::
      (match s.dropWhile (fun x => !p x) with
        | [] => []
        | _ :: r => r.splitOnP p)
  | [] => rfl
  | x :: xs => by
    rw [List.splitOnP_cons]
    by_cases hx : p x = true
    · simp [hx, List.takeWhile, List.dropWhile]
    · have hx1 : p x = false := by simpa using hx
      rw [if_neg hx, splitOnP_takeWhile p xs]
      simp [hx1, List.takeWhile, List.dropWhile, List.modifyHead]

theorem token_runs_dropWhile (delim : List Char) : ∀ (s : List Char),
    token_runs (s.dropWhile (fun c => decide (c ∈ delim))) delim = token_runs s delim
  | [] => rfl
  | x :: xs => by
    by_cases hx : x ∈ delim
    · have h1 : (x :: xs).dropWhile (fun c => decide (c ∈ delim))
          = xs.dropWhile (fun c => decide (c ∈ delim)) := by
        simp [List.dropWhile, hx]
      rw [h1, token_runs_dropWhile delim xs]
      simp [token_runs, List.splitOnP_cons, hx]
    · have h1 : (x :: xs).dropWhile (fun c => decide (c ∈ delim)) = x :: xs := by
        simp [List.dropWhile, hx]
      rw [h1]

theorem token_runs_cons (delim : List Char) (c : Char) (cs : List Char) (hc : c ∉ delim) :
    token_runs (c :: cs) delim
      = (c :: cs).takeWhile (fun x => !decide (x ∈ delim))
        :: token_runs (((c :: cs).dropWhile (fun x => !decide (x ∈ delim))).drop 1) delim := by
  unfold token_runs
  rw [splitOnP_takeWhile (fun c => decide (c ∈ delim)) (c :: cs)]
  have htok : (c :: cs).takeWhile (fun x => !decide (x ∈ delim)) ≠ [] := by
    simp [List.takeWhile, hc]
  rw [List.filter_cons_of_pos (by simpa using htok)]
  congr 1
  cases hd : (c :: cs).dropWhile (fun x => !decide (x ∈ delim)) with
  | nil => rfl
  | cons d r => rfl

theorem dropWhile_head_not (delim : List Char) (s : List Char) (c : Char) (cs : List Char)
    (h : s.dropWhile (fun x => decide (x ∈ delim)) = c :: cs) : c ∉ delim := by
  induction s with
  | nil => simp at h
  | cons x xs ih =>
    by_cases hx : x ∈ delim
    · simp only [List.dropWhile, hx, decide_True] at h
      exact ih h
    · simp only [List.dropWhile, hx, decide_False] at h
      cases h
      exact hx

theorem split_loop_spec (delim : List Char) : ∀ (fuel : Nat) (s : List Char) (out : List String),
    s.length < fuel →
    split_loop delim fuel (strtok s delim) out
      = some (out ++ (token_runs s delim).map String.mk) := by
  intro fuel
  induction fuel with
  | zero =>
    intro s out h
    exact absurd h (Nat.not_lt_zero _)
  | succ f ih =>
    intro s out h
    rw [← token_runs_dropWhile delim s]
    unfold strtok
    cases hd : s.dropWhile (fun c => decide (c ∈ delim)) with
    | nil =>
      simp [split_loop, token_runs]
    | cons c cs =>
      have hc : c ∉ delim := dropWhile_head_not delim s c cs hd
      have hlen1 : (c :: cs).length ≤ s.length := by
        rw [← hd]
        exact (List.dropWhile_sublist _).length_le
      have hlen2 : (((c :: cs).dropWhile (fun x => !decide (x ∈ delim))).drop 1).length
          < f := by
        have h3 : ((c :: cs).dropWhile (fun x => !decide (x ∈ delim))).length
            ≤ (c :: cs).length := (List.dropWhile_sublist _).length_le
        rw [List.length_drop]
        simp only [List.length_cons] at hlen1 h3 ⊢
        omega
      simp only []
      rw [split_loop, ih _ _ hlen2, token_runs_cons delim c cs hc]
      simp

/-- C17: `split` stores in `output_arr`, in order, the maximal non-empty runs of
non-delimiter characters of the input and returns the index of the last stored element,
the number of tokens minus one; for an input without a token it stores nothing and
returns `-1`. -/
theorem split_spec (input_string delim : String) :
    split input_string delim
      = some ⟨((token_runs input_string.data delim.data).length : Int) - 1,
          (token_runs input_string.data delim.data).map String.mk⟩
    ∧ (token_runs input_string.data delim.data = [] →
        split input_string delim = some ⟨-1, []⟩) := by
  have h : split input_string delim
      = some ⟨((token_runs input_string.data delim.data).length : Int) - 1,
          (token_runs input_string.data delim.data).map String.mk⟩ := by
    unfold split
    rw [split_loop_spec delim.data (input_string.length + 1) input_string.data []
      (Nat.lt_succ_self _)]
    simp
  refine ⟨h, fun hnil => ?_⟩
  rw [h, hnil]
  rfl

/-- Runs of `split`: empty pieces between delimiters are no tokens, and an input of
delimiters only gives `-1`. -/
theorem split_examples :
    split ",,a b,;c;" ",; " = some ⟨2, ["a", "b", "c"]⟩
    ∧ split ",,," "," = some ⟨-1, []⟩
    ∧ split "" "," = some ⟨-1, []⟩
    ∧ split "abc" "" = some ⟨0, ["abc"]⟩ := by
  refine ⟨by decide, by decide, by decide, by decide⟩

/-! ## Outcomes of `preg_replace` (claim C16) -/

theorem pcre2_substitute_nonneg (E : Pcre2) (re subject replacement : String)
    (options cap : Nat) (rc : Int) (out : Option String)
    (hneg : ∀ e, E.substitute re options subject replacement = .error e → e < 0)
    (h : pcre2_substitute E re options subject replacement cap = (rc, out)) (hrc : 0 ≤ rc) :
    ∃ text, out = some text := by
  unfold pcre2_substitute at h
  cases hs : E.substitute re options subject replacement with
  | error e =>
    rw [hs] at h
    simp only [Prod.mk.injEq] at h
    have := hneg e hs
    omega
  | ok oc =>
    obtain ⟨o, count⟩ := oc
    rw [hs] at h
    simp only [] at h
    by_cases hfit : o.length + 1 ≤ cap
    · rw [if_pos hfit] at h
      simp only [Prod.mk.injEq] at h
      exact ⟨o, h.2.symm⟩
    · rw [if_neg hfit] at h
      simp only [Prod.mk.injEq] at h
      have h1 := h.1
      unfold PCRE2_ERROR_NOMEMORY at h1
      omega

/-- C16: for an engine whose substitution errors are negative codes, `preg_replace`
returns `SUCCESS` exactly when the pattern compiles and `pcre2_substitute` returns a
non-negative value, and `INVALID_VALUE` otherwise; `result` then holds the substituted
text, respectively `Error compiling regexp at offset #<offset>: '<diagnostic>'.` after a
compile failure and `Error during replace: '<diagnostic>'.` after a failed
substitution. -/
theorem preg_replace_outcomes (E : Pcre2) (re replacement subject result : String) (cap : Nat)
    (hneg : ∀ e, E.substitute re PCRE2_SUBSTITUTE_GLOBAL subject replacement = .error e →
      e < 0) :
    ((preg_replace E re replacement subject result cap).res = SUCCESS ↔
      E.compile re = .ok () ∧
        0 ≤ (pcre2_substitute E re PCRE2_SUBSTITUTE_GLOBAL subject replacement cap).1)
    ∧ ((preg_replace E re replacement subject result cap).res ≠ SUCCESS →
        (preg_replace E re replacement subject result cap).res = INVALID_VALUE)
    ∧ (E.compile re = .ok () →
        0 ≤ (pcre2_substitute E re PCRE2_SUBSTITUTE_GLOBAL subject replacement cap).1 →
        (pcre2_substitute E re PCRE2_SUBSTITUTE_GLOBAL subject replacement cap).2
          = some (preg_replace E re replacement subject result cap).result)
    ∧ (∀ errorcode erroroffset, E.compile re = .error (errorcode, erroroffset) →
        (preg_replace E re replacement subject result cap).res = INVALID_VALUE
        ∧ (preg_replace E re replacement subject result cap).result
          = "Error compiling regexp at offset #" ++ toString erroroffset ++ ": '"
            ++ E.get_error_message errorcode 4096 ++ "'.")
    ∧ (E.compile re = .ok () →
        (pcre2_substitute E re PCRE2_SUBSTITUTE_GLOBAL subject replacement cap).1 < 0 →
        (preg_replace E re replacement subject result cap).res = INVALID_VALUE
        ∧ (preg_replace E re replacement subject result cap).result
          = "Error during replace: '" ++ E.get_error_message
              (pcre2_substitute E re PCRE2_SUBSTITUTE_GLOBAL subject replacement cap).1 4096
            ++ "'.") := by
  cases hc : E.compile re with
  | error e =>
    obtain ⟨errorcode, erroroffset⟩ := e
    have hres : (preg_replace E re replacement subject result cap).res = INVALID_VALUE := by
      unfold preg_replace
      rw [hc]
      rfl
    refine ⟨?_, fun _ => hres, ?_, ?_, ?_⟩
    · rw [hres]
      constructor
      · intro h
        exact absurd h (by decide)
      · rintro ⟨h, _⟩
        exact absurd h (by simp)
    · intro h
      exact absurd h (by simp)
    · intro c o h
      cases h
      refine ⟨hres, ?_⟩
      unfold preg_replace
      rw [hc]
      rfl
    · intro h
      exact absurd h (by simp)
  | ok u =>
    cases hp : pcre2_substitute E re PCRE2_SUBSTITUTE_GLOBAL subject replacement cap with
    | mk rc out =>
      by_cases hrc : rc < SUCCESS
      · have hval : preg_replace E re replacement subject result cap
            = sprintf_result INVALID_VALUE
                ("Error during replace: '" ++ E.get_error_message rc 4096 ++ "'.") := by
          unfold preg_replace
          rw [hc]
          simp only [hp, hrc, if_true]
        have hrc0 : rc < 0 := hrc
        rw [hval]
        refine ⟨?_, fun _ => rfl, ?_, ?_, fun _ _ => ⟨rfl, rfl⟩⟩
        · constructor
          · intro h
            exact absurd h (by simp [sprintf_result, INVALID_VALUE, SUCCESS])
          · rintro ⟨_, h⟩
            simp only [] at h
            omega
        · intro _ h
          simp only [] at h
          omega
        · intro c o h
          exact absurd h (by simp)
      · have hrc0 : 0 ≤ rc := by
          unfold SUCCESS at hrc
          omega
        obtain ⟨text, htext⟩ := pcre2_substitute_nonneg E re subject replacement _ cap rc out
          hneg hp hrc0
        subst htext
        have hval : preg_replace E re replacement subject result cap
            = ⟨SUCCESS, text, text.length + 1⟩ := by
          unfold preg_replace
          rw [hc]
          simp only [hp, hrc, if_false]
        rw [hval]
        refine ⟨?_, fun h => absurd rfl h, fun _ _ => rfl, ?_, ?_⟩
        · constructor
          · intro _
            exact ⟨rfl, hrc0⟩
          · intro _
            rfl
        · intro c o h
          exact absurd h (by simp)
        · intro _ h
          simp only [] at h
          omega

/-- Witness for `preg_replace_outcomes`: the plain-text engine on pattern `foo`. -/
theorem preg_replace_outcomes_witness :
    ((preg_replace literalEngine "foo" "bar" "foo foo baz" "" 64).res = SUCCESS ↔
      literalEngine.compile "foo" = .ok () ∧
        0 ≤ (pcre2_substitute literalEngine "foo" PCRE2_SUBSTITUTE_GLOBAL "foo foo baz" "bar"
          64).1)
    ∧ ((preg_replace literalEngine "foo" "bar" "foo foo baz" "" 64).res ≠ SUCCESS →
        (preg_replace literalEngine "foo" "bar" "foo foo baz" "" 64).res = INVALID_VALUE)
    ∧ (literalEngine.compile "foo" = .ok () →
        0 ≤ (pcre2_substitute literalEngine "foo" PCRE2_SUBSTITUTE_GLOBAL "foo foo baz" "bar"
          64).1 →
        (pcre2_substitute literalEngine "foo" PCRE2_SUBSTITUTE_GLOBAL "foo foo baz" "bar" 64).2
          = some (preg_replace literalEngine "foo" "bar" "foo foo baz" "" 64).result)
    ∧ (∀ errorcode erroroffset,
        literalEngine.compile "foo" = .error (errorcode, erroroffset) →
        (preg_replace literalEngine "foo" "bar" "foo foo baz" "" 64).res = INVALID_VALUE
        ∧ (preg_replace literalEngine "foo" "bar" "foo foo baz" "" 64).result
          = "Error compiling regexp at offset #" ++ toString erroroffset ++ ": '"
            ++ literalEngine.get_error_message errorcode 4096 ++ "'.")
    ∧ (literalEngine.compile "foo" = .ok () →
        (pcre2_substitute literalEngine "foo" PCRE2_SUBSTITUTE_GLOBAL "foo foo baz" "bar" 64).1
          < 0 →
        (preg_replace literalEngine "foo" "bar" "foo foo baz" "" 64).res = INVALID_VALUE
        ∧ (preg_replace literalEngine "foo" "bar" "foo foo baz" "" 64).result
          = "Error during replace: '" ++ literalEngine.get_error_message
              (pcre2_substitute literalEngine "foo" PCRE2_SUBSTITUTE_GLOBAL "foo foo baz" "bar"
                64).1 4096
            ++ "'.") :=
  preg_replace_outcomes literalEngine "foo" "bar" "foo foo baz" "" 64
    (fun e h => by
      have h1 : (Except.ok ("bar bar baz", 2) : Except Int (String × Nat)) = Except.error e := h
      exact absurd h1 (by simp))

/-- The three outcomes of `preg_replace` on the plain-text engine: success, a pattern
that does not compile, and a refused replacement text. -/
theorem preg_replace_three_outcomes :
    preg_replace literalEngine "foo" "bar" "foo foo baz" "" 64 = ⟨SUCCESS, "bar bar baz", 12⟩
    ∧ (preg_replace literalEngine "fo(o" "bar" "foo foo baz" "" 64).res = INVALID_VALUE
    ∧ (preg_replace literalEngine "fo(o" "bar" "foo foo baz" "" 64).result
        = "Error compiling regexp at offset #0: 'unknown error'."
    ∧ (preg_replace literalEngine "foo" "$" "foo foo baz" "" 64).res = INVALID_VALUE
    ∧ (preg_replace literalEngine "foo" "$" "foo foo baz" "" 64).result
        = "Error during replace: 'unknown error'." := by
  refine ⟨rfl, by decide, by decide, by decide, by decide⟩

/-! ## Assignment of `res` and `error_message` in `validate_size` (claims C19, C20) -/

theorem validate_size_compile_error (E : Pcre2) (p NAMELEN : Nat) (re subject err : String)
    (errorcode : Int) (erroroffset : Nat)
    (hc : E.compile re = .error (errorcode, erroroffset)) :
    validate_size E p NAMELEN re subject err
      = ⟨some 0, "Error compiling regexp at offset #" ++ toString erroroffset ++ ": '"
          ++ E.get_error_message errorcode NAMELEN ++ "'."⟩ := by
  unfold validate_size
  rw [hc]

theorem validate_size_match_error (E : Pcre2) (p NAMELEN : Nat) (re subject err : String)
    (hc : E.compile re = .ok ()) (hrc : (E.exec re subject).rc < 0) :
    validate_size E p NAMELEN re subject err
      = ⟨some 0, "Error during matching of size in string '" ++ subject ++ "': '"
          ++ E.get_error_message (E.exec re subject).rc NAMELEN ++ "'."⟩ := by
  unfold validate_size
  rw [hc]
  simp only [hrc, if_true]

theorem validate_size_matched_frame (E : Pcre2) (p NAMELEN : Nat) (re subject err : String)
    (hc : E.compile re = .ok ()) (hrc : 0 ≤ (E.exec re subject).rc) :
    (validate_size E p NAMELEN re subject err).error_message = err := by
  unfold validate_size
  rw [hc]
  simp only []
  rw [if_neg (by omega)]
  split
  · split <;> rfl
  · split
    · split <;> rfl
    · rfl

theorem validate_size_unassigned (E : Pcre2) (p NAMELEN : Nat) (re subject err : String)
    (hc : E.compile re = .ok ())
    (hrc : (E.exec re subject).rc = 0 ∨ (E.exec re subject).rc = 1
      ∨ 3 < (E.exec re subject).rc) :
    (validate_size E p NAMELEN re subject err).res = none := by
  unfold validate_size
  rw [hc]
  simp only []
  rw [if_neg (by omega), if_neg (by omega), if_neg (by omega)]

/-- C19, failing input: the pattern `5` has no capture group and matches the subject
`5`, so `pcre2_match` returns `1`; no branch of `validate_size` assigns `res`, and the
returned value is undefined. The same happens for a match count above `3`. -/
theorem validate_size_res_never_assigned :
    literalEngine.compile "5" = .ok ()
    ∧ (literalEngine.exec "5" "5").rc = 1
    ∧ (validate_size literalEngine 64 256 "5" "5" "").res = none
    ∧ (validate_size (stubEngine ⟨4, fun _ => some "1"⟩) 64 256 "(1)(1)(1)" "111" "").res
        = none := by
  refine ⟨rfl, rfl, by decide, by decide⟩

theorem append_ne_self (t : String) : t ++ "x" ≠ t := by
  intro h
  have hlen : (t ++ "x").length = t.length := by rw [h]
  rw [String.length_append] at hlen
  have h1 : ("x" : String).length = 1 := by decide
  omega

/-- C20: `validate_size` leaves `error_message` as it was, whatever its content, when
the pattern compiles and the match count is `2` or `3`; whenever the content of
`error_message` is changed the return value is `0`; a return value other than `0` comes
from a pattern that compiled and a match that succeeded; and if `error_message` is left
as it was for every initial content, the pattern compiled and the match succeeded. -/
theorem validate_size_error_message_frame (E : Pcre2) (p NAMELEN : Nat)
    (re subject : String) :
    (E.compile re = .ok () → (E.exec re subject).rc = 2 ∨ (E.exec re subject).rc = 3 →
      ∀ err, (validate_size E p NAMELEN re subject err).error_message = err)
    ∧ (∀ err, (validate_size E p NAMELEN re subject err).error_message ≠ err →
        (validate_size E p NAMELEN re subject err).res = some 0)
    ∧ (∀ err, (validate_size E p NAMELEN re subject err).res ≠ some 0 →
        E.compile re = .ok () ∧ 0 ≤ (E.exec re subject).rc)
    ∧ ((∀ err, (validate_size E p NAMELEN re subject err).error_message = err) →
        E.compile re = .ok () ∧ 0 ≤ (E.exec re subject).rc) := by
  cases hc : E.compile re with
  | error e =>
    obtain ⟨errorcode, erroroffset⟩ := e
    have hv := fun err =>
      validate_size_compile_error E p NAMELEN re subject err errorcode erroroffset hc
    refine ⟨fun h => absurd h (by simp), fun err _ => by rw [hv err], ?_, ?_⟩
    · intro err h
      rw [hv err] at h
      exact absurd rfl h
    · intro h
      have h1 := h (("Error compiling regexp at offset #" ++ toString erroroffset ++ ": '"
          ++ E.get_error_message errorcode NAMELEN ++ "'.") ++ "x")
      rw [hv] at h1
      exact absurd h1.symm (append_ne_self _)
  | ok u =>
    by_cases hrc : (E.exec re subject).rc < 0
    · have hv := fun err => validate_size_match_error E p NAMELEN re subject err hc hrc
      refine ⟨fun _ h => by omega, fun err _ => by rw [hv err], ?_, ?_⟩
      · intro err h
        rw [hv err] at h
        exact absurd rfl h
      · intro h
        have h1 := h (("Error during matching of size in string '" ++ subject ++ "': '"
            ++ E.get_error_message (E.exec re subject).rc NAMELEN ++ "'.") ++ "x")
        rw [hv] at h1
        exact absurd h1.symm (append_ne_self _)
    · have hrc0 : 0 ≤ (E.exec re subject).rc := by omega
      have hfr := fun err => validate_size_matched_frame E p NAMELEN re subject err hc hrc0
      exact ⟨fun _ _ err => hfr err, fun err h => absurd (hfr err) h,
        fun _ _ => ⟨rfl, hrc0⟩, fun _ => ⟨rfl, hrc0⟩⟩

/-- Runs of `validate_size` for the four parts of `validate_size_error_message_frame`. -/
theorem validate_size_error_message_examples :
    (validate_size sizeEngine 64 256 size_pattern "2048" "untouched").error_message
      = "untouched"
    ∧ (validate_size sizeEngine 64 256 size_pattern "5GiB" "untouched").error_message
      = "untouched"
    ∧ validate_size sizeEngine 64 256 size_pattern "5 apples" "untouched"
      = ⟨some 0, "Error during matching of size in string '5 apples': 'no match'."⟩
    ∧ validate_size literalEngine 64 256 "(" "5" "untouched"
      = ⟨some 0, "Error compiling regexp at offset #0: 'unknown error'."⟩ := by
  refine ⟨by decide, by decide, rfl, rfl⟩

end Rapiddisk
